import Mathlib

/-!
Grid shape rasterizer and selection store (`src/HomePage/Home.js`)

A shallow embedding of the drawing widget's selection/undo store and of its
three shape rasterizers, followed by theorems about them.

Conventions of the embedding

* A grid cell `{ row, col }` is a pair of integers (`getBoxCoords` produces
  both coordinates with `Math.floor`).
* React state (`selectedBoxes`, `history`) is threaded explicitly: every
  handler is a function from the state before the call to the state after
  all queued updater functions have run, each of them once.
* The grid is `layoutHeight / boxSize = 125` rows by
  `layoutWidth / boxSize = 250` columns.
-/

namespace Home

/-! ## Data model -/

/-- A grid cell, the object literal `{ row, col }` of the source. -/
structure Cell where
  row : Int
  col : Int
deriving DecidableEq

/-- The identity of a cell used for set membership.  The source builds the
template string `${b.row}-${b.col}`; on integer coordinates that string
determines the pair `(row, col)` and conversely, so the key is modelled as
the pair itself. -/
def boxKey (b : Cell) : Int × Int := (b.row, b.col)

/-- The two pieces of React state that the store owns: `selectedBoxes` and
`history` (oldest snapshot first, most recent last). -/
structure Store where
  selectedBoxes : List Cell
  history : List (List Cell)
deriving DecidableEq

/-- The state of a freshly mounted component: `useState([])` twice. -/
def Store.init : Store := { selectedBoxes := [], history := [] }

/-- Constant `layoutWidth`. -/
def layoutWidth : Int := 1000

/-- Constant `layoutHeight`. -/
def layoutHeight : Int := 500

/-- Constant `boxSize`. -/
def boxSize : Int := 4

/-- Number of grid rows, `layoutHeight / boxSize`. -/
def gridRows : Int := layoutHeight / boxSize

/-- Number of grid columns, `layoutWidth / boxSize`. -/
def gridCols : Int := layoutWidth / boxSize

/-! ## Selection and undo store -/

/-- Source function `addBoxToSelection(boxes)`:
```
setSelectedBoxes(prev => {
    const set = new Set(prev.map(b => `${b.row}-${b.col}`));
    const newBoxes = boxes.filter(box => !set.has(`${box.row}-${box.col}`));
    const updated = [...prev, ...newBoxes];
    if (newBoxes.length > 0) { setHistory(h => [...h, prev]); }
    return updated;
});
``` -/
def addBoxToSelection (st : Store) (boxes : List Cell) : Store :=
  let prev := st.selectedBoxes
  let set := prev.map boxKey
  let newBoxes := boxes.filter (fun box => !(set.contains (boxKey box)))
  let updated := prev ++ newBoxes
  { selectedBoxes := updated
    history := if newBoxes.length > 0 then st.history ++ [prev] else st.history }

/-- Source function `handleUndo()`:
```
setHistory(prevHistory => {
    if (prevHistory.length === 0) return prevHistory;
    const newHistory = [...prevHistory];
    const last = newHistory.pop();
    setSelectedBoxes(last || []);
    return newHistory;
});
``` -/
def handleUndo (st : Store) : Store :=
  if st.history.length = 0 then st
  else
    let newHistory := st.history.dropLast
    let last := st.history.getLast?
    { selectedBoxes := last.getD [], history := newHistory }

/-- Source function `clearSelection()`: `setSelectedBoxes([]); setHistory([]);`. -/
def clearSelection (_st : Store) : Store :=
  { selectedBoxes := [], history := [] }

/-- One call on the store's interface. -/
inductive StoreOp where
  | addCells (boxes : List Cell)
  | undo
  | clear
deriving DecidableEq

/-- Effect of one call on the store. -/
def StoreOp.apply (st : Store) : StoreOp → Store
  | .addCells boxes => addBoxToSelection st boxes
  | .undo => handleUndo st
  | .clear => clearSelection st

/-- Effect of a sequence of calls, performed left to right. -/
def runOps (st : Store) (ops : List StoreOp) : Store :=
  ops.foldl StoreOp.apply st

/-- Consecutive `addBoxToSelection` calls, one per list, left to right. -/
def addAll (st : Store) (xs : List (List Cell)) : Store :=
  xs.foldl addBoxToSelection st

/-- The handler `handleUndo` called `n` times in a row. -/
def undoTimes : Nat → Store → Store
  | 0, st => st
  | n + 1, st => undoTimes n (handleUndo st)

/-- The call `addBoxToSelection(boxes)` has a non-empty effect on `st`: some
cell of `boxes` has a `(row, col)` that does not occur in the selection. -/
def AddsCell (st : Store) (boxes : List Cell) : Prop :=
  ∃ b ∈ boxes, boxKey b ∉ st.selectedBoxes.map boxKey

instance (st : Store) (boxes : List Cell) : Decidable (AddsCell st boxes) := by
  unfold AddsCell; infer_instance

/-- Every call of the sequence has a non-empty effect on the state it is
applied to. -/
def EachAddsCell : Store → List (List Cell) → Prop
  | _, [] => True
  | st, x :: xs => AddsCell st x ∧ EachAddsCell (addBoxToSelection st x) xs

/-- No two entries of the list have the same `(row, col)`. -/
def NoDupCells (l : List Cell) : Prop := (l.map boxKey).Nodup

instance (l : List Cell) : Decidable (NoDupCells l) := by
  unfold NoDupCells; infer_instance

/-- Decision procedure for `EachAddsCell`, by recursion on the sequence. -/
def decEachAddsCell : (st : Store) → (xs : List (List Cell)) → Decidable (EachAddsCell st xs)
  | _, [] => isTrue trivial
  | st, x :: xs =>
    match (inferInstance : Decidable (AddsCell st x)),
        decEachAddsCell (addBoxToSelection st x) xs with
    | isTrue h1, isTrue h2 => isTrue ⟨h1, h2⟩
    | isFalse h1, _ => isFalse (fun h => h1 h.1)
    | _, isFalse h2 => isFalse (fun h => h2 h.2)

instance (st : Store) (xs : List (List Cell)) : Decidable (EachAddsCell st xs) :=
  decEachAddsCell st xs

/-- The store invariant behind duplicate freedom: the selection and every
history snapshot are free of duplicate `(row, col)` pairs. -/
def StoreNoDup (st : Store) : Prop :=
  NoDupCells st.selectedBoxes ∧ ∀ s ∈ st.history, NoDupCells s

/-! ## Shape rasterizers

Numbers in the source are IEEE doubles.  The embedding keeps every value as
an integer in a fixed power-of-two unit and rounds after every arithmetic
operation, as the hardware does:

* `fl53` rounds an integer to 53 significant bits (to nearest, ties to
  even): the result of a double `+`, `-` or `*` whose exact value is that
  integer.  `Math.pow(x, 2)` is the rounded square of `x`.
* Halving and doubling are exact in binary floating point and commute with
  rounding, so `centerX` and `centerY` are kept doubled (`sumC = 2 * centerX`,
  `sumR = 2 * centerY`), squared distances are kept times `4`, and the areas
  of `pointInTriangle` are kept doubled.
* `sqrt53 n` is the correctly rounded `Math.sqrt(n)` in units of `2 ^ -52`,
  so `Math.sqrt(n / 4)` is `sqrt53 n` in units of `2 ^ -53`.
* Cell coordinates and loop counters are integers that a double holds
  exactly, that is, of magnitude below `2 ^ 53`.
-/

/-- Successive values of the loop variable of
`for (let v = lo; v <= hi; v++)`. -/
def loopRange (lo hi : Int) : List Int :=
  (List.range (hi + 1 - lo).toNat).map (fun (i : Nat) => lo + (i : Int))

/-- Number of low-order bits that `x` has beyond the 53 bits of a double's
significand: the least `k` with `x < 2 ^ (53 + k)`, found by halving. -/
def dropBits : Nat → Nat → Nat
  | 0, _ => 0
  | fuel + 1, x => if x < 2 ^ 53 then 0 else dropBits fuel (x / 2) + 1

/-- The choice between the two neighbouring doubles `q * 2 ^ k` and
`(q + 1) * 2 ^ k`: the lower one when the exact value is below their
midpoint, the upper one when it is above, and on a tie the one whose
significand is even. -/
def roundPick (q k : Nat) (belowMid aboveMid : Bool) : Nat :=
  if belowMid then q * 2 ^ k
  else if aboveMid then (q + 1) * 2 ^ k
  else if q % 2 = 0 then q * 2 ^ k else (q + 1) * 2 ^ k

/-- Rounding of a natural number to the nearest double (53 significant bits,
ties to even). -/
def fl53Nat (x : Nat) : Nat :=
  let k := dropBits x x
  if k = 0 then x
  else roundPick (x / 2 ^ k) k (decide (x % 2 ^ k < 2 ^ (k - 1)))
    (decide (2 ^ (k - 1) < x % 2 ^ k))

/-- Rounding of an integer to the nearest double: the result of a double
addition, subtraction or multiplication whose exact value is the integer. -/
def fl53 : Int → Int
  | Int.ofNat n => (fl53Nat n : Int)
  | Int.negSucc n => -(fl53Nat (n + 1) : Int)

/-- Number of binary digits of `x`, found by halving. -/
def bitLength : Nat → Nat → Nat
  | 0, _ => 0
  | fuel + 1, x => if x = 0 then 0 else bitLength fuel (x / 2) + 1

/-- Binary digit-by-digit square root: `i` digits remain to be decided and
`r` is the root found so far. -/
def isqrtLoop (n : Nat) : Nat → Nat → Nat
  | 0, r => r
  | i + 1, r => isqrtLoop n i (if (r + 2 ^ i) * (r + 2 ^ i) ≤ n then r + 2 ^ i else r)

/-- The integer square root `⌊√n⌋`. -/
def isqrt (n : Nat) : Nat := isqrtLoop n (bitLength n n) 0

/-- The double `Math.sqrt(n)` for a natural number `n`, in units of
`2 ^ -52`: the correctly rounded square root (53 significant bits) of
`n * 2 ^ 104`. -/
def sqrt53 (n : Nat) : Nat :=
  let big := n * 2 ^ 104
  let s := isqrt big
  let k := dropBits s s
  if k = 0 then (if big ≤ s * s + s then s else s + 1)
  else
    let q := s / 2 ^ k
    let mid := q * 2 ^ k + 2 ^ (k - 1)
    roundPick q k (decide (big < mid * mid)) (decide (mid * mid < big))

/-- The natural number `v` is a double: it has at most 53 significant bits. -/
def Rep53 (v : Nat) : Prop := ∃ m j, m < 2 ^ 53 ∧ v = m * 2 ^ j

/-- The double
`Math.sqrt(Math.pow(col - centerX, 2) + Math.pow(row - centerY, 2))` in units
of `2 ^ -53`, where `centerX = sumC / 2` and `centerY = sumR / 2`: the
difference `col - centerX` is `fl53 (2 * col - sumC) / 2`, its rounded square
is a quarter of `fl53` of the squared numerator, and the square root of a
quarter is half the square root. -/
def distance53 (sumC sumR col row : Int) : Nat :=
  sqrt53 (fl53 (fl53 (fl53 (2 * col - sumC) * fl53 (2 * col - sumC)) +
    fl53 (fl53 (2 * row - sumR) * fl53 (2 * row - sumR)))).toNat

/-- Source function `calculateBoxesInCircle(start, end)`:
```
const centerX = (start.col + end.col) / 2;
const centerY = (start.row + end.row) / 2;
const radius = Math.sqrt(Math.pow(end.col - centerX, 2) + Math.pow(end.row - centerY, 2));
const rStart = Math.floor(centerY - radius);  const rEnd = Math.ceil(centerY + radius);
const cStart = Math.floor(centerX - radius);  const cEnd = Math.ceil(centerX + radius);
for (let r = rStart; r <= rEnd; r++)
  for (let c = cStart; c <= cEnd; c++) {
    const distance = Math.sqrt(Math.pow(c - centerX, 2) + Math.pow(r - centerY, 2));
    if (distance <= radius && r >= 0 && c >= 0 &&
        r < layoutHeight / boxSize && c < layoutWidth / boxSize)
      result.push({ row: r, col: c });
  }
```
Here `sumC = 2 * centerX` and `sumR = 2 * centerY`; `radius` and `distance`
are in units of `2 ^ -53`, in which `centerY` is `sumR * 2 ^ 52`, so that
`Math.floor(centerY - radius)` is the floor of
`fl53 (sumR * 2 ^ 52 - radius) / 2 ^ 53`. -/
def calculateBoxesInCircle (start end_ : Cell) : List Cell :=
  let sumC := fl53 (start.col + end_.col)
  let sumR := fl53 (start.row + end_.row)
  let radius := distance53 sumC sumR end_.col end_.row
  let rStart := fl53 (sumR * 2 ^ 52 - radius) / 2 ^ 53
  let rEnd := -(-fl53 (sumR * 2 ^ 52 + radius) / 2 ^ 53)
  let cStart := fl53 (sumC * 2 ^ 52 - radius) / 2 ^ 53
  let cEnd := -(-fl53 (sumC * 2 ^ 52 + radius) / 2 ^ 53)
  (loopRange rStart rEnd).flatMap fun r =>
    (loopRange cStart cEnd).flatMap fun c =>
      if distance53 sumC sumR c r ≤ radius ∧ r ≥ 0 ∧ c ≥ 0 ∧
          r < layoutHeight / boxSize ∧ c < layoutWidth / boxSize
      then [{ row := r, col := c }] else []

/-- Source function `calculateBoxesInRectangle(start, end)`:
```
const top = Math.min(start.row, end.row);   const bottom = Math.max(start.row, end.row);
const left = Math.min(start.col, end.col);  const right = Math.max(start.col, end.col);
for (let r = top; r <= bottom; r++)
  for (let c = left; c <= right; c++)
    result.push({ row: r, col: c });
``` -/
def calculateBoxesInRectangle (start end_ : Cell) : List Cell :=
  let top := min start.row end_.row
  let bottom := max start.row end_.row
  let left := min start.col end_.col
  let right := max start.col end_.col
  (loopRange top bottom).flatMap fun r =>
    (loopRange left right).flatMap fun c => [{ row := r, col := c }]

/-- A point `{ x, y }` as used by the triangle code (`x` is a column, `y` a
row). -/
structure Point where
  x : Int
  y : Int
deriving DecidableEq

/-- Twice the signed area of the triangle `v1 v2 v3`, in exact arithmetic. -/
def det3 (v1 v2 v3 : Point) : Int :=
  v1.x * (v2.y - v3.y) + v2.x * (v3.y - v1.y) + v3.x * (v1.y - v2.y)

/-- Twice the value of the inner function `area(v1, v2, v3)` of
`pointInTriangle`, which is
`Math.abs((v1.x*(v2.y - v3.y) + v2.x*(v3.y - v1.y) + v3.x*(v1.y - v2.y)) / 2.0)`:
each difference, product and sum is rounded, the division by `2.0` is
exact. -/
def area2 (v1 v2 v3 : Point) : Int :=
  |fl53 (fl53 (fl53 (v1.x * fl53 (v2.y - v3.y)) + fl53 (v2.x * fl53 (v3.y - v1.y))) +
    fl53 (v3.x * fl53 (v1.y - v2.y)))|

/-- Source function `pointInTriangle(p, a, b, c)`:
```
const A = area(a, b, c);  const A1 = area(p, b, c);
const A2 = area(a, p, c); const A3 = area(a, b, p);
return Math.abs(A - (A1 + A2 + A3)) < 0.5;
```
With every area doubled, the tolerance `0.5` becomes `1`. -/
def pointInTriangle (p a b c : Point) : Bool :=
  let A := area2 a b c
  let A1 := area2 p b c
  let A2 := area2 a p c
  let A3 := area2 a b p
  decide (|fl53 (A - fl53 (fl53 (A1 + A2) + A3))| < 1)

/-- The four clamped scan bounds `(minRow, maxRow, minCol, maxCol)` of
`calculateBoxesInTriangle` for the three vertices. -/
def triangleBounds (baseLeft baseRight apex : Point) : Int × Int × Int × Int :=
  let minRow := max 0 (min (min baseLeft.y baseRight.y) apex.y)
  let maxRow := min (layoutHeight / boxSize - 1) (max (max baseLeft.y baseRight.y) apex.y)
  let minCol := max 0 (min (min baseLeft.x baseRight.x) apex.x)
  let maxCol := min (layoutWidth / boxSize - 1) (max (max baseLeft.x baseRight.x) apex.x)
  (minRow, maxRow, minCol, maxCol)

/-- Vertex `baseLeft` of `calculateBoxesInTriangle`:
`{ x: start.col - Math.abs(end.col - start.col), y: start.row }`. -/
def triBaseLeft (start end_ : Cell) : Point :=
  { x := fl53 (start.col - |fl53 (end_.col - start.col)|), y := start.row }

/-- Vertex `baseRight` of `calculateBoxesInTriangle`:
`{ x: start.col + Math.abs(end.col - start.col), y: start.row }`. -/
def triBaseRight (start end_ : Cell) : Point :=
  { x := fl53 (start.col + |fl53 (end_.col - start.col)|), y := start.row }

/-- Vertex `apex` of `calculateBoxesInTriangle`. -/
def triApex (_start end_ : Cell) : Point :=
  { x := end_.col, y := end_.row }

/-- The value `estimated` of `calculateBoxesInTriangle`:
`(maxRow - minRow + 1) * (maxCol - minCol + 1)`. -/
def triangleEstimated (start end_ : Cell) : Int :=
  match triangleBounds (triBaseLeft start end_) (triBaseRight start end_)
      (triApex start end_) with
  | (minRow, maxRow, minCol, maxCol) =>
    fl53 (fl53 (fl53 (maxRow - minRow) + 1) * fl53 (fl53 (maxCol - minCol) + 1))

/-- Constant `maxPoints` of `calculateBoxesInTriangle`. -/
def maxPoints : Int := 3000

/-- Source function `calculateBoxesInTriangle(start, end)`:
```
const baseLeft = { x: start.col - Math.abs(end.col - start.col), y: start.row };
const baseRight = { x: start.col + Math.abs(end.col - start.col), y: start.row };
const apex = { x: end.col, y: end.row };
const minRow = Math.max(0, Math.min(baseLeft.y, baseRight.y, apex.y));
const maxRow = Math.min(layoutHeight / boxSize - 1, Math.max(baseLeft.y, baseRight.y, apex.y));
const minCol = Math.max(0, Math.min(baseLeft.x, baseRight.x, apex.x));
const maxCol = Math.min(layoutWidth / boxSize - 1, Math.max(baseLeft.x, baseRight.x, apex.x));
const maxPoints = 3000;
const estimated = (maxRow - minRow + 1) * (maxCol - minCol + 1);
if (estimated > maxPoints) return [];
for (let r = minRow; r <= maxRow; r++)
  for (let c = minCol; c <= maxCol; c++)
    if (pointInTriangle({ x: c, y: r }, baseLeft, baseRight, apex))
      result.push({ row: r, col: c });
``` -/
def calculateBoxesInTriangle (start end_ : Cell) : List Cell :=
  let baseLeft := triBaseLeft start end_
  let baseRight := triBaseRight start end_
  let apex := triApex start end_
  match triangleBounds baseLeft baseRight apex with
  | (minRow, maxRow, minCol, maxCol) =>
    let estimated :=
      fl53 (fl53 (fl53 (maxRow - minRow) + 1) * fl53 (fl53 (maxCol - minCol) + 1))
    if estimated > maxPoints then []
    else
      (loopRange minRow maxRow).flatMap fun r =>
        (loopRange minCol maxCol).flatMap fun c =>
          if pointInTriangle { x := c, y := r } baseLeft baseRight apex
          then [{ row := r, col := c }] else []

/-- Every coordinate of the cell has magnitude at most `10 ^ 6`. -/
def Cell.Small (b : Cell) : Prop := |b.row| ≤ 10 ^ 6 ∧ |b.col| ≤ 10 ^ 6

instance (b : Cell) : Decidable b.Small := by
  unfold Cell.Small; infer_instance

/-- Every coordinate of the point has magnitude at most `10 ^ 7`. -/
def Point.Small (v : Point) : Prop := |v.x| ≤ 10 ^ 7 ∧ |v.y| ≤ 10 ^ 7

instance (v : Point) : Decidable v.Small := by
  unfold Point.Small; infer_instance

/-- The cell lies inside the grid: `0 ≤ row < 125` and `0 ≤ col < 250`. -/
def InGrid (b : Cell) : Prop :=
  0 ≤ b.row ∧ b.row < gridRows ∧ 0 ≤ b.col ∧ b.col < gridCols

instance (b : Cell) : Decidable (InGrid b) := by
  unfold InGrid; infer_instance

/-- The point `p` lies in the closed triangle with vertices `a`, `b`, `c`:
it is a convex combination of the three vertices (real weights, non-negative,
summing to one).  For collinear or coincident vertices this is the segment or
the point they span. -/
def InClosedTriangle (p a b c : Point) : Prop :=
  ∃ u v w : ℝ, 0 ≤ u ∧ 0 ≤ v ∧ 0 ≤ w ∧ u + v + w = 1 ∧
    (p.x : ℝ) = u * a.x + v * b.x + w * c.x ∧
    (p.y : ℝ) = u * a.y + v * b.y + w * c.y

/-! ## Gesture controller

The pointer handlers of the component.  An event is represented by the cell
that `getBoxCoords(e)` computes for it.  The debounced preview update
(`debounce(..., 10)`) is a one-slot timer: `pending` holds the arguments of
the call that will run when the timer fires, and every new call replaces
them (`clearTimeout` followed by `setTimeout`).
-/

/-- Source function `getBoxCoords(e)`, as a function of the pointer offsets
`x = e.clientX - rect.left` and `y = e.clientY - rect.top`:
`col = Math.floor(x / boxSize)`, `row = Math.floor(y / boxSize)`. -/
def getBoxCoords (x y : Int) : Cell :=
  { row := y / boxSize, col := x / boxSize }

/-- The active tool, one of the four strings of the `tool` state. -/
inductive Tool where
  | pencil
  | circle
  | rectangle
  | triangle
deriving DecidableEq

/-- All state of the component that the handlers read or write:
`selectedBoxes` and `history` (in `store`), `previewBoxes`, `startPoint`,
the refs `isDragging` and `lastDrawnBox`, `tool`, and the pending call of
`updatePreviewDebounced`. -/
structure GState where
  store : Store
  previewBoxes : List Cell
  startPoint : Option Cell
  isDragging : Bool
  lastDrawnBox : Option Cell
  tool : Tool
  pending : Option (Tool × Cell × Cell)
deriving DecidableEq

/-- The state of a freshly mounted component. -/
def GState.init : GState :=
  { store := Store.init, previewBoxes := [], startPoint := none, isDragging := false,
    lastDrawnBox := none, tool := Tool.pencil, pending := none }

/-- The updater that pencil `handleMouseMove` passes to `setSelectedBoxes`:
```
prev => {
    const exists = prev.some(b => b.row === end.row && b.col === end.col);
    if (!exists) {
        const newSelected = [...prev, end];
        setHistory(h => [...h, prev]);
        return newSelected;
    }
    return prev;
}
``` -/
def pencilMoveUpdate (st : Store) (end_ : Cell) : Store :=
  let prev := st.selectedBoxes
  let exists_ := prev.any (fun b => b.row == end_.row && b.col == end_.col)
  if !exists_ then
    let newSelected := prev ++ [end_]
    { selectedBoxes := newSelected, history := st.history ++ [prev] }
  else st

/-- Source function `handleMouseDown(e)`, with `start = getBoxCoords(e)`:
```
isDragging.current = true;
setStartPoint(start);
lastDrawnBox.current = null;
if (tool === "pencil") { addBoxToSelection([start]); lastDrawnBox.current = start; }
``` -/
def handleMouseDown (g : GState) (start : Cell) : GState :=
  let g1 := { g with isDragging := true, startPoint := some start, lastDrawnBox := none }
  if g.tool = Tool.pencil then
    { g1 with store := addBoxToSelection g.store [start], lastDrawnBox := some start }
  else g1

/-- Source function `handleMouseMove(e)`, with `end = getBoxCoords(e)`:
```
if (!isDragging.current || !startPoint) return;
if (tool === "pencil") {
    if (!lastDrawnBox.current || lastDrawnBox.current.row !== end.row ||
        lastDrawnBox.current.col !== end.col) {
        lastDrawnBox.current = end;
        setSelectedBoxes(prev => ...);
    }
} else {
    updatePreviewDebounced.current(tool, startPoint, end);
}
``` -/
def handleMouseMove (g : GState) (end_ : Cell) : GState :=
  match g.isDragging, g.startPoint with
  | true, some startPoint =>
    if g.tool = Tool.pencil then
      let entered : Bool :=
        match g.lastDrawnBox with
        | none => true
        | some last => last.row != end_.row || last.col != end_.col
      if entered then
        { g with lastDrawnBox := some end_, store := pencilMoveUpdate g.store end_ }
      else g
    else
      { g with pending := some (g.tool, startPoint, end_) }
  | _, _ => g

/-- The cell list that `handleMouseUp` and the debounced preview update
compute for a tool: the `if (tool === "circle") ... else if ...` chain, which
has no branch for the pencil. -/
def shapeBoxes (tool : Tool) (start end_ : Cell) : Option (List Cell) :=
  match tool with
  | Tool.circle => some (calculateBoxesInCircle start end_)
  | Tool.rectangle => some (calculateBoxesInRectangle start end_)
  | Tool.triangle => some (calculateBoxesInTriangle start end_)
  | Tool.pencil => none

/-- Source function `handleMouseUp(e)`, with `end = getBoxCoords(e)`; it is
bound to both `onMouseUp` and `onMouseLeave`:
```
isDragging.current = false;
lastDrawnBox.current = null;
if (!startPoint) return;
if (tool === "circle") addBoxToSelection(calculateBoxesInCircle(startPoint, end));
else if (tool === "rectangle") addBoxToSelection(calculateBoxesInRectangle(startPoint, end));
else if (tool === "triangle") addBoxToSelection(calculateBoxesInTriangle(startPoint, end));
setStartPoint(null);
setPreviewBoxes([]);
``` -/
def handleMouseUp (g : GState) (end_ : Cell) : GState :=
  let g1 := { g with isDragging := false, lastDrawnBox := none }
  match g.startPoint with
  | none => g1
  | some startPoint =>
    let store :=
      match shapeBoxes g.tool startPoint end_ with
      | some boxes => addBoxToSelection g.store boxes
      | none => g.store
    { g1 with store := store, startPoint := none, previewBoxes := [] }

/-- The pending call of `updatePreviewDebounced` runs (its timer fires):
```
(tool, start, end) => {
    if (tool === "circle") setPreviewBoxes(calculateBoxesInCircle(start, end));
    else if (tool === "rectangle") setPreviewBoxes(calculateBoxesInRectangle(start, end));
    else if (tool === "triangle") setPreviewBoxes(calculateBoxesInTriangle(start, end));
}
``` -/
def firePreviewTimer (g : GState) : GState :=
  match g.pending with
  | none => g
  | some (tool, start, end_) =>
    match shapeBoxes tool start end_ with
    | some boxes => { g with pending := none, previewBoxes := boxes }
    | none => { g with pending := none }

/-- One thing that can happen to the component: a pointer event with its
cursor cell (`pointerUp` stands for both `onMouseUp` and `onMouseLeave`), the
firing of the debounce timer, a click on a tool button, on Undo or on
Clear. -/
inductive Event where
  | pointerDown (cell : Cell)
  | pointerMove (cell : Cell)
  | pointerUp (cell : Cell)
  | timerFires
  | setTool (tool : Tool)
  | undo
  | clear
deriving DecidableEq

/-- Effect of one event on the component state. -/
def Event.apply (g : GState) : Event → GState
  | .pointerDown cell => handleMouseDown g cell
  | .pointerMove cell => handleMouseMove g cell
  | .pointerUp cell => handleMouseUp g cell
  | .timerFires => firePreviewTimer g
  | .setTool tool => { g with tool := tool }
  | .undo => { g with store := handleUndo g.store }
  | .clear => { g with store := clearSelection g.store }

/-- Effect of a sequence of events, in order. -/
def runEvents (g : GState) (events : List Event) : GState :=
  events.foldl Event.apply g

/-- The component is idle: no anchor and not dragging. -/
def GState.Idle (g : GState) : Prop := g.startPoint = none ∧ g.isDragging = false

instance (g : GState) : Decidable g.Idle := by
  unfold GState.Idle; infer_instance

/-- One step of a run that mixes the component's events with direct
`addBoxToSelection` calls on arbitrary cell lists. -/
inductive Action where
  | event (e : Event)
  | addCells (boxes : List Cell)
deriving DecidableEq

/-- Effect of one action on the component state. -/
def Action.apply (g : GState) : Action → GState
  | .event e => Event.apply g e
  | .addCells boxes => { g with store := addBoxToSelection g.store boxes }

/-- Effect of a sequence of actions, in order. -/
def runActions (g : GState) (actions : List Action) : GState :=
  actions.foldl Action.apply g

/-- The list `a` is a proper initial segment of the list `b`. -/
def ProperInitial (a b : List Cell) : Prop := a <+: b ∧ a.length < b.length

/-- Every history snapshot is a proper initial segment of the snapshot above
it, and the top snapshot is a proper initial segment of the selection. -/
def HistoryChain (st : Store) : Prop :=
  List.Chain' ProperInitial (st.history ++ [st.selectedBoxes])

/-- All cells of the list lie inside the grid. -/
def AllInGrid (l : List Cell) : Prop := ∀ b ∈ l, InGrid b

instance (l : List Cell) : Decidable (AllInGrid l) := by
  unfold AllInGrid; infer_instance

/-! ## Basic facts about the store -/

theorem boxKey_injective : Function.Injective boxKey := by
  intro a b h
  cases a; cases b
  simp only [boxKey, Prod.mk.injEq] at h
  simp [h.1, h.2]

theorem boxKey_mem_map_iff (b : Cell) (l : List Cell) :
    boxKey b ∈ l.map boxKey ↔ b ∈ l := by
  constructor
  · intro h
    obtain ⟨a, ha, hab⟩ := List.mem_map.1 h
    exact boxKey_injective hab ▸ ha
  · intro h
    exact List.mem_map_of_mem _ h

theorem notContains_eq_decide (keys : List (Int × Int)) :
    (fun box : Cell => !(keys.contains (boxKey box))) =
      fun box => decide (boxKey box ∉ keys) := by
  funext box
  by_cases h : boxKey box ∈ keys
  · simp [h]
  · simp [h]

theorem addBoxToSelection_selectedBoxes (st : Store) (boxes : List Cell) :
    (addBoxToSelection st boxes).selectedBoxes =
      st.selectedBoxes ++
        boxes.filter (fun b => decide (boxKey b ∉ st.selectedBoxes.map boxKey)) := by
  simp only [addBoxToSelection, notContains_eq_decide]

theorem filter_new_eq_nil_iff (S boxes : List Cell) :
    boxes.filter (fun b => decide (boxKey b ∉ S.map boxKey)) = [] ↔
      ¬ ∃ b ∈ boxes, boxKey b ∉ S.map boxKey := by
  simp [List.filter_eq_nil_iff]

theorem addBoxToSelection_history (st : Store) (boxes : List Cell) :
    (addBoxToSelection st boxes).history =
      if AddsCell st boxes then st.history ++ [st.selectedBoxes] else st.history := by
  by_cases h : AddsCell st boxes
  · have hne : boxes.filter (fun b => decide (boxKey b ∉ st.selectedBoxes.map boxKey)) ≠ [] := by
      intro h0
      exact (filter_new_eq_nil_iff _ _).1 h0 h
    have hpos := List.length_pos.2 hne
    simp only [addBoxToSelection, notContains_eq_decide, if_pos h]
    rw [if_pos hpos]
  · have h0 := (filter_new_eq_nil_iff st.selectedBoxes boxes).2 h
    simp only [addBoxToSelection, notContains_eq_decide, if_neg h, h0]
    simp

theorem noDupCells_iff_nodup (l : List Cell) : NoDupCells l ↔ l.Nodup := by
  unfold NoDupCells
  exact List.nodup_map_iff boxKey_injective

theorem handleUndo_addBoxToSelection (st : Store) (boxes : List Cell)
    (h : AddsCell st boxes) : handleUndo (addBoxToSelection st boxes) = st := by
  have hh := addBoxToSelection_history st boxes
  rw [if_pos h] at hh
  cases st with
  | mk S H =>
    simp only [handleUndo, hh]
    simp

theorem undoTimes_succ_outer (n : Nat) (st : Store) :
    undoTimes (n + 1) st = handleUndo (undoTimes n st) := by
  induction n generalizing st with
  | zero => rfl
  | succ k ih =>
    show undoTimes (k + 1) (handleUndo st) = handleUndo (undoTimes (k + 1) st)
    rw [ih (handleUndo st)]
    rfl

theorem not_addsCell_after_add (st : Store) (boxes : List Cell) :
    ¬ AddsCell (addBoxToSelection st boxes) boxes := by
  rintro ⟨b, hb, hnot⟩
  apply hnot
  rw [addBoxToSelection_selectedBoxes, List.map_append, List.mem_append]
  by_cases hin : boxKey b ∈ st.selectedBoxes.map boxKey
  · exact Or.inl hin
  · refine Or.inr (List.mem_map_of_mem _ ?_)
    exact List.mem_filter.2 ⟨hb, by simpa using hin⟩

theorem addBoxToSelection_of_not_addsCell (st : Store) (boxes : List Cell)
    (h : ¬ AddsCell st boxes) : addBoxToSelection st boxes = st := by
  have hs := addBoxToSelection_selectedBoxes st boxes
  have hh := addBoxToSelection_history st boxes
  rw [if_neg h] at hh
  rw [(filter_new_eq_nil_iff st.selectedBoxes boxes).2 h, List.append_nil] at hs
  cases st with
  | mk S H =>
    cases hr : addBoxToSelection ⟨S, H⟩ boxes with
    | mk S2 H2 =>
      rw [hr] at hs hh
      simp only at hs hh
      rw [hs, hh]

theorem storeNoDup_init : StoreNoDup Store.init := by
  refine ⟨?_, ?_⟩
  · simp [Store.init, NoDupCells]
  · intro s hs
    simp [Store.init] at hs

theorem storeNoDup_addBoxToSelection (st : Store) (boxes : List Cell)
    (hst : StoreNoDup st) (hb : NoDupCells boxes) :
    StoreNoDup (addBoxToSelection st boxes) := by
  obtain ⟨hsel, hhist⟩ := hst
  refine ⟨?_, ?_⟩
  · rw [addBoxToSelection_selectedBoxes, noDupCells_iff_nodup]
    rw [noDupCells_iff_nodup] at hsel hb
    refine List.Nodup.append hsel (hb.filter _) ?_
    intro a ha hfa
    have hp := (List.mem_filter.1 hfa).2
    simp only [decide_eq_true_eq] at hp
    exact hp (List.mem_map_of_mem _ ha)
  · intro s hs
    rw [addBoxToSelection_history] at hs
    split at hs
    · rcases List.mem_append.1 hs with h1 | h1
      · exact hhist s h1
      · rw [List.mem_singleton.1 h1]
        exact hsel
    · exact hhist s hs

theorem storeNoDup_handleUndo (st : Store) (hst : StoreNoDup st) :
    StoreNoDup (handleUndo st) := by
  obtain ⟨hsel, hhist⟩ := hst
  unfold handleUndo
  split
  · exact ⟨hsel, hhist⟩
  · refine ⟨?_, ?_⟩
    · show NoDupCells (st.history.getLast?.getD [])
      cases hl : st.history.getLast? with
      | none => simp [NoDupCells]
      | some l =>
        exact hhist l (List.mem_of_getLast?_eq_some hl)
    · intro s hs
      exact hhist s (List.dropLast_subset _ hs)

theorem storeNoDup_clearSelection (st : Store) : StoreNoDup (clearSelection st) := by
  refine ⟨?_, ?_⟩
  · simp [clearSelection, NoDupCells]
  · intro s hs
    simp [clearSelection] at hs

theorem storeNoDup_runOps (ops : List StoreOp) (st : Store) (hst : StoreNoDup st)
    (h : ∀ X, StoreOp.addCells X ∈ ops → NoDupCells X) :
    StoreNoDup (runOps st ops) := by
  induction ops generalizing st with
  | nil => exact hst
  | cons op rest ih =>
    show StoreNoDup (runOps (StoreOp.apply st op) rest)
    apply ih
    · cases op with
      | addCells X =>
        exact storeNoDup_addBoxToSelection st X hst (h X (List.mem_cons_self _ _))
      | undo => exact storeNoDup_handleUndo st hst
      | clear => exact storeNoDup_clearSelection st
    · intro X hX
      exact h X (List.mem_cons_of_mem _ hX)

/-! ## Basic facts about loops and grid constants -/

theorem mem_loopRange (lo hi v : Int) : v ∈ loopRange lo hi ↔ lo ≤ v ∧ v ≤ hi := by
  unfold loopRange
  simp only [List.mem_map, List.mem_range]
  constructor
  · rintro ⟨i, hi1, rfl⟩
    omega
  · rintro ⟨h1, h2⟩
    refine ⟨(v - lo).toNat, ?_, ?_⟩ <;> omega

theorem nodup_loopRange (lo hi : Int) : (loopRange lo hi).Nodup := by
  unfold loopRange
  refine (List.nodup_range _).map ?_
  intro i j h
  simpa using h

theorem length_loopRange (lo hi : Int) :
    (loopRange lo hi).length = (hi + 1 - lo).toNat := by
  simp [loopRange]

theorem gridRows_eq : layoutHeight / boxSize = 125 := by decide

theorem gridCols_eq : layoutWidth / boxSize = 250 := by decide

theorem inGrid_iff (b : Cell) :
    InGrid b ↔ 0 ≤ b.row ∧ b.row < 125 ∧ 0 ≤ b.col ∧ b.col < 250 := by
  unfold InGrid gridRows gridCols
  rw [gridRows_eq, gridCols_eq]

theorem length_flatMap_const {α β : Type} (l : List α) (f : α → List β) (n : Nat)
    (h : ∀ a ∈ l, (f a).length = n) : (l.flatMap f).length = l.length * n := by
  induction l with
  | nil => simp
  | cons a t ih =>
    rw [List.flatMap_cons, List.length_append, h a (List.mem_cons_self _ _),
      ih (fun b hb => h b (List.mem_cons_of_mem _ hb)), List.length_cons]
    ring

/-! ## Rectangle -/

theorem mem_calculateBoxesInRectangle (start end_ b : Cell) :
    b ∈ calculateBoxesInRectangle start end_ ↔
      min start.row end_.row ≤ b.row ∧ b.row ≤ max start.row end_.row ∧
      min start.col end_.col ≤ b.col ∧ b.col ≤ max start.col end_.col := by
  unfold calculateBoxesInRectangle
  simp only [List.mem_flatMap, mem_loopRange, List.mem_singleton]
  constructor
  · rintro ⟨r, ⟨hr1, hr2⟩, c, ⟨hc1, hc2⟩, rfl⟩
    exact ⟨hr1, hr2, hc1, hc2⟩
  · rintro ⟨hr1, hr2, hc1, hc2⟩
    exact ⟨b.row, ⟨hr1, hr2⟩, b.col, ⟨hc1, hc2⟩, rfl⟩

theorem nodup_calculateBoxesInRectangle (start end_ : Cell) :
    (calculateBoxesInRectangle start end_).Nodup := by
  unfold calculateBoxesInRectangle
  rw [List.nodup_flatMap]
  refine ⟨?_, ?_⟩
  · intro r _
    rw [List.nodup_flatMap]
    refine ⟨fun c _ => List.nodup_singleton _, ?_⟩
    refine (nodup_loopRange _ _).imp ?_
    intro c1 c2 hne
    simp only [Function.onFun]
    intro b hb1 hb2
    rw [List.mem_singleton] at hb1 hb2
    rw [hb1, Cell.mk.injEq] at hb2
    exact hne hb2.2
  · refine (nodup_loopRange _ _).imp ?_
    intro r1 r2 hne
    simp only [Function.onFun]
    intro b hb1 hb2
    simp only [List.mem_flatMap, List.mem_singleton] at hb1 hb2
    obtain ⟨c1, _, rfl⟩ := hb1
    obtain ⟨c2, _, h2⟩ := hb2
    simp only [Cell.mk.injEq] at h2
    exact hne h2.1

theorem length_calculateBoxesInRectangle (start end_ : Cell) :
    ((calculateBoxesInRectangle start end_).length : Int) =
      (|end_.row - start.row| + 1) * (|end_.col - start.col| + 1) := by
  unfold calculateBoxesInRectangle
  rw [length_flatMap_const _ _ (max start.col end_.col + 1 - min start.col end_.col).toNat]
  · rw [length_loopRange, Nat.cast_mul, ← max_sub_min_eq_abs, ← max_sub_min_eq_abs]
    have h1 : min start.row end_.row ≤ max start.row end_.row := min_le_max
    have h2 : min start.col end_.col ≤ max start.col end_.col := min_le_max
    rw [Int.toNat_of_nonneg (by omega), Int.toNat_of_nonneg (by omega)]
    ring
  · intro r _
    rw [length_flatMap_const _ (fun c => [({ row := r, col := c } : Cell)]) 1 (fun c _ => rfl),
      length_loopRange, Nat.mul_one]

/-! ## Rounding to doubles -/

theorem dropBits_spec : ∀ fuel x : Nat, x ≤ fuel →
    x < 2 ^ (53 + dropBits fuel x) ∧
      (0 < dropBits fuel x → 2 ^ (52 + dropBits fuel x) ≤ x) := by
  intro fuel
  induction fuel with
  | zero =>
    intro x hx
    have : x = 0 := by omega
    subst this
    simp [dropBits]
  | succ f ih =>
    intro x hx
    by_cases hlt : x < 2 ^ 53
    · have e : dropBits (f + 1) x = 0 := by simp only [dropBits, if_pos hlt]
      rw [e]
      exact ⟨hlt, fun h => absurd h (lt_irrefl 0)⟩
    · have hge : 2 ^ 53 ≤ x := Nat.le_of_not_lt hlt
      have h2 : x / 2 ≤ f := by
        have : (2 : Nat) ^ 53 = 9007199254740992 := by norm_num
        omega
      obtain ⟨i1, i2⟩ := ih (x / 2) h2
      simp only [dropBits, hlt, if_false]
      constructor
      · have e : 53 + (dropBits f (x / 2) + 1) = (53 + dropBits f (x / 2)) + 1 := by ring
        rw [e, pow_succ]
        omega
      · intro _
        by_cases hk : 0 < dropBits f (x / 2)
        · have := i2 hk
          have e : 52 + (dropBits f (x / 2) + 1) = (52 + dropBits f (x / 2)) + 1 := by ring
          rw [e, pow_succ]
          omega
        · have hk0 : dropBits f (x / 2) = 0 := by omega
          rw [hk0]
          exact hge

theorem dropBits_self_spec (x : Nat) :
    x < 2 ^ (53 + dropBits x x) ∧ (0 < dropBits x x → 2 ^ (52 + dropBits x x) ≤ x) :=
  dropBits_spec x x (le_refl x)

theorem dropBits_of_lt (x : Nat) (h : x < 2 ^ 53) : dropBits x x = 0 := by
  cases x with
  | zero => rfl
  | succ n => simp only [dropBits, if_pos h]

theorem fl53Nat_of_lt (x : Nat) (h : x < 2 ^ 53) : fl53Nat x = x := by
  simp only [fl53Nat, dropBits_of_lt x h, if_true]

theorem roundPick_cases (q k : Nat) (b1 b2 : Bool) :
    roundPick q k b1 b2 = q * 2 ^ k ∨ roundPick q k b1 b2 = (q + 1) * 2 ^ k := by
  unfold roundPick
  split
  · exact Or.inl rfl
  · split
    · exact Or.inr rfl
    · split
      · exact Or.inl rfl
      · exact Or.inr rfl

theorem roundPick_ge (q k : Nat) (b1 b2 : Bool) : q * 2 ^ k ≤ roundPick q k b1 b2 := by
  rcases roundPick_cases q k b1 b2 with h | h <;> rw [h]
  exact Nat.mul_le_mul_right _ (Nat.le_succ q)

theorem roundPick_le (q k : Nat) (b1 b2 : Bool) : roundPick q k b1 b2 ≤ (q + 1) * 2 ^ k := by
  rcases roundPick_cases q k b1 b2 with h | h <;> rw [h]
  exact Nat.mul_le_mul_right _ (Nat.le_succ q)

theorem roundPick_below (q k : Nat) (b2 : Bool) : roundPick q k true b2 = q * 2 ^ k := by
  simp [roundPick]

/-- A double of magnitude at least `2 ^ (52 + k)` is a multiple of `2 ^ k`. -/
theorem rep53_dvd (v k : Nat) (hv : Rep53 v) (h : 2 ^ (52 + k) ≤ v) : 2 ^ k ∣ v := by
  obtain ⟨m, j, hm, rfl⟩ := hv
  by_cases hjk : k ≤ j
  · exact Dvd.dvd.mul_left (pow_dvd_pow 2 hjk) m
  · exfalso
    have hj : j + 1 ≤ k := by omega
    have h1 : m * 2 ^ j < 2 ^ 53 * 2 ^ j :=
      Nat.mul_lt_mul_of_pos_right hm (Nat.two_pow_pos _)
    have h2 : (2 : Nat) ^ 53 * 2 ^ j = 2 ^ (52 + (j + 1)) := by
      rw [← pow_add]
      congr 1
      omega
    have h3 : (2 : Nat) ^ (52 + (j + 1)) ≤ 2 ^ (52 + k) :=
      Nat.pow_le_pow_right (by norm_num) (by omega)
    omega

/-- No double lies strictly between `⌊x / 2^k⌋ * 2^k` and `x` when
`x ≥ 2 ^ (52 + k)`. -/
theorem rep53_le_lower (v x k : Nat) (hv : Rep53 v) (hx : 2 ^ (52 + k) ≤ x) (h : v ≤ x) :
    v ≤ x / 2 ^ k * 2 ^ k := by
  have hpos : 0 < 2 ^ k := Nat.two_pow_pos _
  by_cases hsmall : v < 2 ^ (52 + k)
  · have h1 : 2 ^ 52 ≤ x / 2 ^ k := by
      rw [Nat.le_div_iff_mul_le hpos, ← pow_add]
      exact hx
    have h2 : 2 ^ 52 * 2 ^ k ≤ x / 2 ^ k * 2 ^ k := Nat.mul_le_mul_right _ h1
    rw [← pow_add] at h2
    omega
  · obtain ⟨t, rfl⟩ := rep53_dvd v k hv (Nat.le_of_not_lt hsmall)
    rw [Nat.mul_comm]
    apply Nat.mul_le_mul_right
    rw [Nat.le_div_iff_mul_le hpos, Nat.mul_comm]
    exact h

/-- The next double above `q * 2^k ≥ 2 ^ (52 + k)` is `(q + 1) * 2^k`. -/
theorem rep53_ge_upper (v q k : Nat) (hv : Rep53 v) (hq : 2 ^ (52 + k) ≤ q * 2 ^ k)
    (h : q * 2 ^ k < v) : (q + 1) * 2 ^ k ≤ v := by
  obtain ⟨t, rfl⟩ := rep53_dvd v k hv (by omega)
  rw [Nat.mul_comm (2 ^ k) t] at h ⊢
  apply Nat.mul_le_mul_right
  have := Nat.lt_of_mul_lt_mul_right h
  omega

theorem lower_ge_pow (x k : Nat) (hx : 2 ^ (52 + k) ≤ x) : 2 ^ (52 + k) ≤ x / 2 ^ k * 2 ^ k := by
  have hpos : 0 < 2 ^ k := Nat.two_pow_pos _
  have h1 : 2 ^ 52 ≤ x / 2 ^ k := by
    rw [Nat.le_div_iff_mul_le hpos, ← pow_add]
    exact hx
  have h2 : 2 ^ 52 * 2 ^ k ≤ x / 2 ^ k * 2 ^ k := Nat.mul_le_mul_right _ h1
  rw [← pow_add] at h2
  exact h2

/-- Rounding never goes below a double that is at most the exact value. -/
theorem le_fl53Nat (v x : Nat) (hv : Rep53 v) (h : v ≤ x) : v ≤ fl53Nat x := by
  unfold fl53Nat
  simp only
  split
  · exact h
  · rename_i hk
    have hx := (dropBits_self_spec x).2 (Nat.pos_of_ne_zero hk)
    exact le_trans (rep53_le_lower v x _ hv hx h) (roundPick_ge _ _ _ _)

/-- Rounding never goes above a double that is at least the exact value. -/
theorem fl53Nat_le (v x : Nat) (hv : Rep53 v) (h : x ≤ v) : fl53Nat x ≤ v := by
  unfold fl53Nat
  simp only
  split
  · exact h
  · rename_i hk
    have hkpos : 0 < dropBits x x := Nat.pos_of_ne_zero hk
    have hx := (dropBits_self_spec x).2 hkpos
    by_cases hrem : x % 2 ^ dropBits x x = 0
    · have hhalf : x % 2 ^ dropBits x x < 2 ^ (dropBits x x - 1) := by
        rw [hrem]
        exact Nat.two_pow_pos _
      rw [decide_eq_true hhalf, roundPick_below]
      have := Nat.div_mul_le_self x (2 ^ dropBits x x)
      omega
    · have hlt : x / 2 ^ dropBits x x * 2 ^ dropBits x x < x := by
        have := Nat.div_add_mod x (2 ^ dropBits x x)
        have hpos := Nat.pos_of_ne_zero hrem
        rw [Nat.mul_comm] at this
        omega
      have := rep53_ge_upper v _ _ hv (lower_ge_pow x _ hx) (lt_of_lt_of_le hlt h)
      exact le_trans (roundPick_le _ _ _ _) this

theorem bitLength_spec : ∀ fuel x : Nat, x ≤ fuel → x < 2 ^ bitLength fuel x := by
  intro fuel
  induction fuel with
  | zero =>
    intro x hx
    have : x = 0 := by omega
    subst this
    simp [bitLength]
  | succ f ih =>
    intro x hx
    by_cases h0 : x = 0
    · subst h0
      simp [bitLength]
    · have h2 : x / 2 ≤ f := by omega
      have := ih (x / 2) h2
      simp only [bitLength, h0, if_false]
      rw [pow_succ]
      omega

theorem isqrtLoop_spec (n : Nat) : ∀ i r : Nat, r * r ≤ n → n < (r + 2 ^ i) * (r + 2 ^ i) →
    isqrtLoop n i r * isqrtLoop n i r ≤ n ∧
      n < (isqrtLoop n i r + 1) * (isqrtLoop n i r + 1) := by
  intro i
  induction i with
  | zero =>
    intro r h1 h2
    simpa [isqrtLoop] using ⟨h1, h2⟩
  | succ j ih =>
    intro r h1 h2
    simp only [isqrtLoop]
    split
    · rename_i hle
      apply ih _ hle
      have e : r + 2 ^ j + 2 ^ j = r + 2 ^ (j + 1) := by rw [pow_succ]; ring
      rw [e]
      exact h2
    · rename_i hnle
      exact ih r h1 (Nat.lt_of_not_le hnle)

theorem isqrt_spec (n : Nat) : isqrt n * isqrt n ≤ n ∧ n < (isqrt n + 1) * (isqrt n + 1) := by
  unfold isqrt
  apply isqrtLoop_spec n _ 0 (Nat.zero_le _)
  have h := bitLength_spec n n (le_refl n)
  have h1 : 1 ≤ 2 ^ bitLength n n := Nat.one_le_two_pow
  rw [Nat.zero_add]
  calc n < 2 ^ bitLength n n := h
    _ = 2 ^ bitLength n n * 1 := (Nat.mul_one _).symm
    _ ≤ 2 ^ bitLength n n * 2 ^ bitLength n n := Nat.mul_le_mul_left _ h1

theorem le_of_mul_self_le_of_lt (v s n : Nat) (h1 : v * v ≤ n) (h2 : n < (s + 1) * (s + 1)) :
    v ≤ s := by
  by_contra hlt
  have h3 : s + 1 ≤ v := by omega
  have := Nat.mul_le_mul h3 h3
  omega

/-- The rounded square root is at least every double whose square is at most
the radicand. -/
theorem le_sqrt53 (v n : Nat) (hv : Rep53 v) (h : v * v ≤ n * 2 ^ 104) : v ≤ sqrt53 n := by
  obtain ⟨s1, s2⟩ := isqrt_spec (n * 2 ^ 104)
  have hvs : v ≤ isqrt (n * 2 ^ 104) := le_of_mul_self_le_of_lt v _ _ h s2
  unfold sqrt53
  simp only
  split
  · split
    · exact hvs
    · exact le_trans hvs (Nat.le_succ _)
  · rename_i hk
    have hx := (dropBits_self_spec (isqrt (n * 2 ^ 104))).2 (Nat.pos_of_ne_zero hk)
    exact le_trans (rep53_le_lower v _ _ hv hx hvs) (roundPick_ge _ _ _ _)

/-- The rounded square root is at most every double whose square is at least
the radicand. -/
theorem sqrt53_le (v n : Nat) (hv : Rep53 v) (h : n * 2 ^ 104 ≤ v * v) : sqrt53 n ≤ v := by
  obtain ⟨s1, s2⟩ := isqrt_spec (n * 2 ^ 104)
  have hsv : isqrt (n * 2 ^ 104) ≤ v :=
    le_of_mul_self_le_of_lt _ v _ (le_trans s1 h) (by
      have := Nat.mul_le_mul (Nat.le_succ v) (Nat.le_succ v)
      have := Nat.mul_lt_mul'' (Nat.lt_succ_self v) (Nat.lt_succ_self v)
      exact this)
  unfold sqrt53
  simp only
  split
  · split
    · exact hsv
    · rename_i hbig
      by_contra hlt
      have hveq : v = isqrt (n * 2 ^ 104) := by omega
      rw [← hveq] at hbig
      apply hbig
      have : v * v ≤ v * v + v := Nat.le_add_right _ _
      omega
  · rename_i hk
    have hkpos : 0 < dropBits (isqrt (n * 2 ^ 104)) (isqrt (n * 2 ^ 104)) :=
      Nat.pos_of_ne_zero hk
    have hx := (dropBits_self_spec (isqrt (n * 2 ^ 104))).2 hkpos
    generalize hs : isqrt (n * 2 ^ 104) = s at *
    generalize hkk : dropBits s s = k at *
    by_cases hb : n * 2 ^ 104 < (s / 2 ^ k * 2 ^ k + 2 ^ (k - 1)) * (s / 2 ^ k * 2 ^ k + 2 ^ (k - 1))
    · rw [decide_eq_true hb, roundPick_below]
      exact le_trans (Nat.div_mul_le_self s (2 ^ k)) hsv
    · have hmid : (s / 2 ^ k * 2 ^ k + 2 ^ (k - 1)) * (s / 2 ^ k * 2 ^ k + 2 ^ (k - 1)) ≤ v * v :=
        le_trans (Nat.le_of_not_lt hb) h
      have hvm : s / 2 ^ k * 2 ^ k + 2 ^ (k - 1) ≤ v := by
        by_contra hlt
        have := Nat.mul_lt_mul'' (Nat.lt_of_not_le hlt) (Nat.lt_of_not_le hlt)
        omega
      have hpos : 0 < 2 ^ (k - 1) := Nat.two_pow_pos _
      have := rep53_ge_upper v _ _ hv (lower_ge_pow s k hx) (by omega)
      exact le_trans (roundPick_le _ _ _ _) this

theorem fl53_of_lt (z : Int) (h1 : -(2 ^ 53) < z) (h2 : z < 2 ^ 53) : fl53 z = z := by
  cases z with
  | ofNat n =>
    have hn : n < 2 ^ 53 := by
      have h3 : (n : Int) < 2 ^ 53 := h2
      exact_mod_cast h3
    simp only [fl53, fl53Nat_of_lt n hn]
    rfl
  | negSucc n =>
    have hn : n + 1 < 2 ^ 53 := by
      have : -((2 : Int) ^ 53) < -((n : Int) + 1) := by
        rw [Int.negSucc_eq] at h1
        exact h1
      have h3 : ((n : Int) + 1) < 2 ^ 53 := by linarith
      exact_mod_cast h3
    simp only [fl53, fl53Nat_of_lt (n + 1) hn]
    rw [Int.negSucc_eq]
    push_cast
    ring

theorem fl53_of_abs_le (z : Int) (h : |z| ≤ 2 ^ 52) : fl53 z = z := by
  have h1 := abs_le.1 h
  apply fl53_of_lt
  · have : (2 : Int) ^ 52 < 2 ^ 53 := by norm_num
    linarith [h1.1]
  · have : (2 : Int) ^ 52 < 2 ^ 53 := by norm_num
    linarith [h1.2]

theorem fl53_nonneg_of_nonneg (x : Int) (h : 0 ≤ x) : 0 ≤ fl53 x := by
  cases x with
  | ofNat n => exact Int.natCast_nonneg _
  | negSucc n => exact absurd h (by simp)

/-- Rounding never goes below a double that is at most the exact value. -/
theorem le_fl53 (v x : Int) (hv : Rep53 v.natAbs) (h : v ≤ x) : v ≤ fl53 x := by
  cases x with
  | ofNat n =>
    cases v with
    | ofNat m =>
      have hmn : m ≤ n := by
        have h3 : (m : Int) ≤ (n : Int) := h
        exact_mod_cast h3
      have := le_fl53Nat m n hv hmn
      show (m : Int) ≤ (fl53Nat n : Int)
      exact_mod_cast this
    | negSucc m =>
      have h0 : (0 : Int) ≤ fl53 (Int.ofNat n) := Int.natCast_nonneg _
      have hneg : Int.negSucc m < 0 := Int.negSucc_lt_zero m
      exact le_trans hneg.le h0
  | negSucc n =>
    cases v with
    | ofNat m =>
      have hneg : Int.negSucc n < 0 := Int.negSucc_lt_zero n
      have h0 : (0 : Int) ≤ Int.ofNat m := Int.natCast_nonneg _
      exact absurd (le_trans h0 h) (not_le.2 hneg)
    | negSucc m =>
      have hnm : n + 1 ≤ m + 1 := by
        rw [Int.negSucc_eq, Int.negSucc_eq] at h
        have : (n : Int) + 1 ≤ m + 1 := by linarith
        exact_mod_cast this
      have := fl53Nat_le (m + 1) (n + 1) hv hnm
      show Int.negSucc m ≤ -(fl53Nat (n + 1) : Int)
      rw [Int.negSucc_eq]
      have h2 : (fl53Nat (n + 1) : Int) ≤ (m : Int) + 1 := by exact_mod_cast this
      linarith

/-- Rounding never goes above a double that is at least the exact value. -/
theorem fl53_le (v x : Int) (hv : Rep53 v.natAbs) (h : x ≤ v) : fl53 x ≤ v := by
  cases x with
  | ofNat n =>
    cases v with
    | ofNat m =>
      have hnm : n ≤ m := by
        have h3 : (n : Int) ≤ (m : Int) := h
        exact_mod_cast h3
      have := fl53Nat_le m n hv hnm
      show (fl53Nat n : Int) ≤ (m : Int)
      exact_mod_cast this
    | negSucc m =>
      have hneg : Int.negSucc m < 0 := Int.negSucc_lt_zero m
      have h0 : (0 : Int) ≤ Int.ofNat n := Int.natCast_nonneg _
      exact absurd (le_trans h0 h) (not_le.2 hneg)
  | negSucc n =>
    cases v with
    | ofNat m =>
      show -(fl53Nat (n + 1) : Int) ≤ (m : Int)
      have h1 : (0 : Int) ≤ (fl53Nat (n + 1) : Int) := Int.natCast_nonneg _
      have h2 : (0 : Int) ≤ (m : Int) := Int.natCast_nonneg _
      linarith
    | negSucc m =>
      have hmn : m + 1 ≤ n + 1 := by
        rw [Int.negSucc_eq, Int.negSucc_eq] at h
        have : (m : Int) + 1 ≤ n + 1 := by linarith
        exact_mod_cast this
      have := le_fl53Nat (m + 1) (n + 1) hv hmn
      show -(fl53Nat (n + 1) : Int) ≤ Int.negSucc m
      rw [Int.negSucc_eq]
      have h2 : (m : Int) + 1 ≤ (fl53Nat (n + 1) : Int) := by exact_mod_cast this
      linarith

theorem rep53_mul_pow (m j : Nat) (hm : m < 2 ^ 53) : Rep53 (m * 2 ^ j) := ⟨m, j, hm, rfl⟩

/-- Below `2 ^ 44` the rounded square root is strictly increasing: two
doubles lie between the square roots of consecutive naturals. -/
theorem sqrt53_lt (a b : Nat) (hab : a < b) (hb : b < 2 ^ 44) : sqrt53 a < sqrt53 b := by
  have hj1 := Nat.sqrt_le (a * 2 ^ 60)
  have hj2 := Nat.lt_succ_sqrt (a * 2 ^ 60)
  generalize Nat.sqrt (a * 2 ^ 60) = J at hj1 hj2
  have ha60 : a * 2 ^ 60 < 2 ^ 52 * 2 ^ 52 := by
    have : a < 2 ^ 44 := lt_trans hab hb
    calc a * 2 ^ 60 < 2 ^ 44 * 2 ^ 60 := Nat.mul_lt_mul_of_pos_right this (Nat.two_pow_pos _)
      _ = 2 ^ 52 * 2 ^ 52 := by norm_num
  have hJ : J < 2 ^ 52 := by
    by_contra hge
    have h1 : 2 ^ 52 ≤ J := Nat.le_of_not_lt hge
    have := Nat.mul_le_mul h1 h1
    omega
  have hrep1 : Rep53 ((J + 1) * 2 ^ 22) :=
    rep53_mul_pow _ _ (by have : (2 : Nat) ^ 52 < 2 ^ 53 := by norm_num
                          omega)
  have hrep2 : Rep53 ((J + 2) * 2 ^ 22) :=
    rep53_mul_pow _ _ (by have : (2 : Nat) ^ 52 + 2 < 2 ^ 53 := by norm_num
                          omega)
  have e104 : (2 : Nat) ^ 104 = 2 ^ 60 * (2 ^ 22 * 2 ^ 22) := by norm_num
  have hup : a * 2 ^ 104 ≤ (J + 1) * 2 ^ 22 * ((J + 1) * 2 ^ 22) := by
    have h1 : a * 2 ^ 60 ≤ (J + 1) * (J + 1) := by
      exact hj2.le
    calc a * 2 ^ 104 = a * 2 ^ 60 * (2 ^ 22 * 2 ^ 22) := by rw [e104]; ring
      _ ≤ (J + 1) * (J + 1) * (2 ^ 22 * 2 ^ 22) := Nat.mul_le_mul_right _ h1
      _ = (J + 1) * 2 ^ 22 * ((J + 1) * 2 ^ 22) := by ring
  have hlow : (J + 2) * 2 ^ 22 * ((J + 2) * 2 ^ 22) ≤ b * 2 ^ 104 := by
    have h1 : (J + 2) * (J + 2) ≤ b * 2 ^ 60 := by
      have hb1 : a + 1 ≤ b := hab
      have h2 : (a + 1) * 2 ^ 60 ≤ b * 2 ^ 60 := Nat.mul_le_mul_right _ hb1
      have h3 : (J + 2) * (J + 2) = J * J + 4 * J + 4 := by ring
      have h4 : (2 : Nat) ^ 52 = 4503599627370496 := by norm_num
      have h5 : (2 : Nat) ^ 60 = 1152921504606846976 := by norm_num
      rw [h3]
      rw [h5] at h2 hj1 ⊢
      rw [h4] at hJ
      omega
    calc (J + 2) * 2 ^ 22 * ((J + 2) * 2 ^ 22)
        = (J + 2) * (J + 2) * (2 ^ 22 * 2 ^ 22) := by ring
      _ ≤ b * 2 ^ 60 * (2 ^ 22 * 2 ^ 22) := Nat.mul_le_mul_right _ h1
      _ = b * 2 ^ 104 := by rw [e104]; ring
  have s1 := sqrt53_le _ a hrep1 hup
  have s2 := le_sqrt53 _ b hrep2 hlow
  have : (J + 1) * 2 ^ 22 < (J + 2) * 2 ^ 22 :=
    Nat.mul_lt_mul_of_pos_right (by omega) (Nat.two_pow_pos _)
  omega

theorem sqrt53_le_iff (a b : Nat) (ha : a < 2 ^ 44) (hb : b < 2 ^ 44) :
    sqrt53 a ≤ sqrt53 b ↔ a ≤ b := by
  constructor
  · intro h
    by_contra hlt
    have := sqrt53_lt b a (Nat.lt_of_not_le hlt) ha
    omega
  · intro h
    rcases Nat.lt_or_eq_of_le h with h1 | h1
    · exact (sqrt53_lt a b h1 hb).le
    · rw [h1]

/-! ## Circle -/

theorem natAbs_mul_two_pow (r : Int) (j : Nat) : (r * 2 ^ j).natAbs = r.natAbs * 2 ^ j := by
  rw [Int.natAbs_mul, Int.natAbs_pow]
  rfl

theorem rep53_int_mul_pow (r : Int) (j : Nat) (hr : |r| < 2 ^ 53) :
    Rep53 (r * 2 ^ j).natAbs := by
  rw [natAbs_mul_two_pow]
  apply rep53_mul_pow
  have h : ((r.natAbs : Nat) : Int) < 2 ^ 53 := by
    rw [Int.natCast_natAbs]
    exact hr
  exact_mod_cast h

/-- A natural number whose square is at most the radicand is a lower bound
of the rounded square root. -/
theorem nat_le_sqrt53 (w n : Nat) (hw : w < 2 ^ 53) (h : w * w ≤ n) :
    w * 2 ^ 52 ≤ sqrt53 n := by
  apply le_sqrt53 _ _ (rep53_mul_pow w 52 hw)
  have e : w * 2 ^ 52 * (w * 2 ^ 52) = w * w * 2 ^ 104 := by
    have : (2 : Nat) ^ 104 = 2 ^ 52 * 2 ^ 52 := by norm_num
    rw [this]
    ring
  rw [e]
  exact Nat.mul_le_mul_right _ h

/-- The rounded `Math.floor(centerY - radius)` is at most every row `r` whose
doubled offset from the centre squares to at most the radicand. -/
theorem scan_floor_le (m r : Int) (n : Nat) (hr : |r| < 2 ^ 52) (hm : |m - 2 * r| < 2 ^ 53)
    (h : (m - 2 * r) ^ 2 ≤ (n : Int)) :
    fl53 (m * 2 ^ 52 - (sqrt53 n : Int)) / 2 ^ 53 ≤ r := by
  apply Int.ediv_le_of_le_mul (by norm_num)
  apply fl53_le _ _ (rep53_int_mul_pow r 53 (lt_trans hr (by norm_num)))
  have hw : (m - 2 * r).natAbs < 2 ^ 53 := by
    have h1 : ((m - 2 * r).natAbs : Int) < 2 ^ 53 := by
      rw [Int.natCast_natAbs]
      exact hm
    exact_mod_cast h1
  have hsq : (m - 2 * r).natAbs * (m - 2 * r).natAbs ≤ n := by
    have h1 : (((m - 2 * r).natAbs : Nat) : Int) * (((m - 2 * r).natAbs : Nat) : Int) ≤
        (n : Int) := by
      rw [Int.natCast_natAbs, abs_mul_abs_self, ← sq]
      exact h
    exact_mod_cast h1
  have hR := nat_le_sqrt53 _ n hw hsq
  have hR2 : (((m - 2 * r).natAbs : Nat) : Int) * 2 ^ 52 ≤ (sqrt53 n : Int) := by
    exact_mod_cast hR
  rw [Int.natCast_natAbs] at hR2
  have h3 : (m - 2 * r) * 2 ^ 52 ≤ |m - 2 * r| * 2 ^ 52 :=
    mul_le_mul_of_nonneg_right (le_abs_self _) (by positivity)
  have e : r * 2 ^ 53 = 2 * r * 2 ^ 52 := by ring
  rw [e]
  linarith

/-- The rounded `Math.ceil(centerY + radius)` is at least every row `r` whose
doubled offset from the centre squares to at most the radicand. -/
theorem le_scan_ceil (m r : Int) (n : Nat) (hr : |r| < 2 ^ 52) (hm : |m - 2 * r| < 2 ^ 53)
    (h : (m - 2 * r) ^ 2 ≤ (n : Int)) :
    r ≤ -(-fl53 (m * 2 ^ 52 + (sqrt53 n : Int)) / 2 ^ 53) := by
  rw [le_neg]
  apply Int.ediv_le_of_le_mul (by norm_num)
  rw [neg_mul, neg_le_neg_iff]
  apply le_fl53 _ _ (rep53_int_mul_pow r 53 (lt_trans hr (by norm_num)))
  have hw : (m - 2 * r).natAbs < 2 ^ 53 := by
    have h1 : ((m - 2 * r).natAbs : Int) < 2 ^ 53 := by
      rw [Int.natCast_natAbs]
      exact hm
    exact_mod_cast h1
  have hsq : (m - 2 * r).natAbs * (m - 2 * r).natAbs ≤ n := by
    have h1 : (((m - 2 * r).natAbs : Nat) : Int) * (((m - 2 * r).natAbs : Nat) : Int) ≤
        (n : Int) := by
      rw [Int.natCast_natAbs, abs_mul_abs_self, ← sq]
      exact h
    exact_mod_cast h1
  have hR := nat_le_sqrt53 _ n hw hsq
  have hR2 : (((m - 2 * r).natAbs : Nat) : Int) * 2 ^ 52 ≤ (sqrt53 n : Int) := by
    exact_mod_cast hR
  rw [Int.natCast_natAbs] at hR2
  have h3 : -(m - 2 * r) * 2 ^ 52 ≤ |m - 2 * r| * 2 ^ 52 :=
    mul_le_mul_of_nonneg_right (neg_le_abs _) (by positivity)
  have e : r * 2 ^ 53 = 2 * r * 2 ^ 52 := by ring
  rw [e]
  linarith

/-- For offsets of pointer-sized magnitude no rounding occurs below the
square root: the radicand is the exact sum of squares. -/
theorem distance53_exact (sumC sumR col row : Int) (hc : |2 * col - sumC| ≤ 2100000)
    (hr : |2 * row - sumR| ≤ 2100000) :
    distance53 sumC sumR col row =
        sqrt53 ((2 * col - sumC) ^ 2 + (2 * row - sumR) ^ 2).toNat ∧
      ((2 * col - sumC) ^ 2 + (2 * row - sumR) ^ 2).toNat < 2 ^ 44 := by
  have e1 : fl53 (2 * col - sumC) = 2 * col - sumC :=
    fl53_of_abs_le _ (le_trans hc (by norm_num))
  have e2 : fl53 (2 * row - sumR) = 2 * row - sumR :=
    fl53_of_abs_le _ (le_trans hr (by norm_num))
  have b1 : (2 * col - sumC) ^ 2 ≤ 2100000 ^ 2 := by
    rw [← sq_abs]
    exact pow_le_pow_left₀ (abs_nonneg _) hc 2
  have b2 : (2 * row - sumR) ^ 2 ≤ 2100000 ^ 2 := by
    rw [← sq_abs]
    exact pow_le_pow_left₀ (abs_nonneg _) hr 2
  have n1 : 0 ≤ (2 * col - sumC) ^ 2 := sq_nonneg _
  have n2 : 0 ≤ (2 * row - sumR) ^ 2 := sq_nonneg _
  have e3 : fl53 ((2 * col - sumC) * (2 * col - sumC)) = (2 * col - sumC) ^ 2 := by
    rw [← sq]
    apply fl53_of_abs_le
    rw [abs_of_nonneg n1]
    exact le_trans b1 (by norm_num)
  have e4 : fl53 ((2 * row - sumR) * (2 * row - sumR)) = (2 * row - sumR) ^ 2 := by
    rw [← sq]
    apply fl53_of_abs_le
    rw [abs_of_nonneg n2]
    exact le_trans b2 (by norm_num)
  have e5 : fl53 ((2 * col - sumC) ^ 2 + (2 * row - sumR) ^ 2) =
      (2 * col - sumC) ^ 2 + (2 * row - sumR) ^ 2 := by
    apply fl53_of_abs_le
    rw [abs_of_nonneg (add_nonneg n1 n2)]
    have : (2100000 : Int) ^ 2 + 2100000 ^ 2 ≤ 2 ^ 52 := by norm_num
    linarith
  refine ⟨?_, ?_⟩
  · unfold distance53
    rw [e1, e2, e3, e4, e5]
  · have h44 : (2100000 : Int) ^ 2 + 2100000 ^ 2 < 2 ^ 44 := by norm_num
    have hlt : (2 * col - sumC) ^ 2 + (2 * row - sumR) ^ 2 < 2 ^ 44 := by linarith
    have hcast : (((2 * col - sumC) ^ 2 + (2 * row - sumR) ^ 2).toNat : Int) < ((2 ^ 44 : Nat) : Int) := by
      rw [Int.toNat_of_nonneg (add_nonneg n1 n2)]
      push_cast
      exact hlt
    exact_mod_cast hcast

theorem mem_calculateBoxesInCircle_scan (start end_ b : Cell) :
    b ∈ calculateBoxesInCircle start end_ ↔
      (fl53 (fl53 (start.row + end_.row) * 2 ^ 52 -
            (distance53 (fl53 (start.col + end_.col)) (fl53 (start.row + end_.row))
              end_.col end_.row : Int)) / 2 ^ 53 ≤ b.row ∧
        b.row ≤ -(-fl53 (fl53 (start.row + end_.row) * 2 ^ 52 +
            (distance53 (fl53 (start.col + end_.col)) (fl53 (start.row + end_.row))
              end_.col end_.row : Int)) / 2 ^ 53)) ∧
      (fl53 (fl53 (start.col + end_.col) * 2 ^ 52 -
            (distance53 (fl53 (start.col + end_.col)) (fl53 (start.row + end_.row))
              end_.col end_.row : Int)) / 2 ^ 53 ≤ b.col ∧
        b.col ≤ -(-fl53 (fl53 (start.col + end_.col) * 2 ^ 52 +
            (distance53 (fl53 (start.col + end_.col)) (fl53 (start.row + end_.row))
              end_.col end_.row : Int)) / 2 ^ 53)) ∧
      distance53 (fl53 (start.col + end_.col)) (fl53 (start.row + end_.row)) b.col b.row ≤
        distance53 (fl53 (start.col + end_.col)) (fl53 (start.row + end_.row))
          end_.col end_.row ∧
      0 ≤ b.row ∧ 0 ≤ b.col ∧ b.row < 125 ∧ b.col < 250 := by
  unfold calculateBoxesInCircle
  simp only [List.mem_flatMap, mem_loopRange, gridRows_eq, gridCols_eq]
  constructor
  · rintro ⟨r, hr, c, hc, hb⟩
    split at hb
    · rename_i hcond
      rw [List.mem_singleton] at hb
      subst hb
      exact ⟨hr, hc, hcond.1, hcond.2.1, hcond.2.2.1, hcond.2.2.2.1, hcond.2.2.2.2⟩
    · simp at hb
  · rintro ⟨hr, hc, h1, h2, h3, h4, h5⟩
    refine ⟨b.row, hr, b.col, hc, ?_⟩
    rw [if_pos ⟨h1, h2, h3, h4, h5⟩]
    exact List.mem_singleton.2 rfl

theorem inGrid_of_mem_calculateBoxesInCircle (start end_ b : Cell)
    (h : b ∈ calculateBoxesInCircle start end_) : InGrid b := by
  rw [mem_calculateBoxesInCircle_scan] at h
  rw [inGrid_iff]
  exact ⟨h.2.2.2.1, h.2.2.2.2.2.1, h.2.2.2.2.1, h.2.2.2.2.2.2⟩

/-- For pointer-sized coordinates the circle is exact: a cell is returned if
and only if it passes the distance test in exact arithmetic and lies in the
grid. -/
theorem mem_calculateBoxesInCircle (start end_ b : Cell) (hs : start.Small)
    (he : end_.Small) :
    b ∈ calculateBoxesInCircle start end_ ↔
      (2 * b.col - start.col - end_.col) ^ 2 + (2 * b.row - start.row - end_.row) ^ 2 ≤
          (end_.col - start.col) ^ 2 + (end_.row - start.row) ^ 2 ∧
        0 ≤ b.row ∧ b.row < 125 ∧ 0 ≤ b.col ∧ b.col < 250 := by
  obtain ⟨hs1, hs2⟩ := hs
  obtain ⟨he1, he2⟩ := he
  have hs1' := abs_le.1 hs1
  have hs2' := abs_le.1 hs2
  have he1' := abs_le.1 he1
  have he2' := abs_le.1 he2
  have p6 : (10 : Int) ^ 6 = 1000000 := by norm_num
  rw [p6] at hs1' hs2' he1' he2'
  have eC : fl53 (start.col + end_.col) = start.col + end_.col :=
    fl53_of_abs_le _ (by rw [abs_le]; constructor <;> norm_num <;> omega)
  have eR : fl53 (start.row + end_.row) = start.row + end_.row :=
    fl53_of_abs_le _ (by rw [abs_le]; constructor <;> norm_num <;> omega)
  rw [mem_calculateBoxesInCircle_scan, eC, eR]
  obtain ⟨dE, nE⟩ := distance53_exact (start.col + end_.col) (start.row + end_.row)
    end_.col end_.row (by rw [abs_le]; constructor <;> omega)
    (by rw [abs_le]; constructor <;> omega)
  rw [dE]
  have exE : (2 * end_.col - (start.col + end_.col)) ^ 2 +
      (2 * end_.row - (start.row + end_.row)) ^ 2 =
      (end_.col - start.col) ^ 2 + (end_.row - start.row) ^ 2 := by ring
  have exB : (2 * b.col - (start.col + end_.col)) ^ 2 +
      (2 * b.row - (start.row + end_.row)) ^ 2 =
      (2 * b.col - start.col - end_.col) ^ 2 + (2 * b.row - start.row - end_.row) ^ 2 := by
    ring
  have nnE : 0 ≤ (2 * end_.col - (start.col + end_.col)) ^ 2 +
      (2 * end_.row - (start.row + end_.row)) ^ 2 := by positivity
  have nnB : 0 ≤ (2 * b.col - (start.col + end_.col)) ^ 2 +
      (2 * b.row - (start.row + end_.row)) ^ 2 := by positivity
  have key : 0 ≤ b.row → 0 ≤ b.col → b.row < 125 → b.col < 250 →
      (distance53 (start.col + end_.col) (start.row + end_.row) b.col b.row ≤
          sqrt53 ((2 * end_.col - (start.col + end_.col)) ^ 2 +
            (2 * end_.row - (start.row + end_.row)) ^ 2).toNat ↔
        (2 * b.col - start.col - end_.col) ^ 2 + (2 * b.row - start.row - end_.row) ^ 2 ≤
          (end_.col - start.col) ^ 2 + (end_.row - start.row) ^ 2) := by
    intro g1 g2 g3 g4
    obtain ⟨dB, nB⟩ := distance53_exact (start.col + end_.col) (start.row + end_.row)
      b.col b.row (by rw [abs_le]; constructor <;> omega)
      (by rw [abs_le]; constructor <;> omega)
    rw [dB, sqrt53_le_iff _ _ nB nE, Int.toNat_le, Int.toNat_of_nonneg nnE, exE, exB]
  constructor
  · rintro ⟨_, _, htest, g1, g2, g3, g4⟩
    exact ⟨(key g1 g2 g3 g4).1 htest, g1, g3, g2, g4⟩
  · rintro ⟨hex, g1, g3, g2, g4⟩
    have hrow : (start.row + end_.row - 2 * b.row) ^ 2 ≤
        ((((2 * end_.col - (start.col + end_.col)) ^ 2 +
          (2 * end_.row - (start.row + end_.row)) ^ 2).toNat : Nat) : Int) := by
      have e : (start.row + end_.row - 2 * b.row) ^ 2 =
          (2 * b.row - start.row - end_.row) ^ 2 := by ring
      rw [Int.toNat_of_nonneg nnE, exE, e]
      linarith [sq_nonneg (2 * b.col - start.col - end_.col)]
    have hcol : (start.col + end_.col - 2 * b.col) ^ 2 ≤
        ((((2 * end_.col - (start.col + end_.col)) ^ 2 +
          (2 * end_.row - (start.row + end_.row)) ^ 2).toNat : Nat) : Int) := by
      have e : (start.col + end_.col - 2 * b.col) ^ 2 =
          (2 * b.col - start.col - end_.col) ^ 2 := by ring
      rw [Int.toNat_of_nonneg nnE, exE, e]
      linarith [sq_nonneg (2 * b.row - start.row - end_.row)]
    have br : |b.row| < 2 ^ 52 := by
      rw [abs_lt]; constructor <;> norm_num <;> omega
    have bc : |b.col| < 2 ^ 52 := by
      rw [abs_lt]; constructor <;> norm_num <;> omega
    have mr : |start.row + end_.row - 2 * b.row| < 2 ^ 53 := by
      rw [abs_lt]; constructor <;> norm_num <;> omega
    have mc : |start.col + end_.col - 2 * b.col| < 2 ^ 53 := by
      rw [abs_lt]; constructor <;> norm_num <;> omega
    exact ⟨⟨scan_floor_le _ _ _ br mr hrow, le_scan_ceil _ _ _ br mr hrow⟩,
      ⟨scan_floor_le _ _ _ bc mc hcol, le_scan_ceil _ _ _ bc mc hcol⟩,
      (key g1 g2 g3 g4).2 hex, g1, g2, g3, g4⟩

/-! ## Triangle -/

theorem abs_sum_eq_sum_abs_signs (d1 d2 d3 : Int)
    (h : |d1 + d2 + d3| = |d1| + |d2| + |d3|) :
    (0 ≤ d1 ∧ 0 ≤ d2 ∧ 0 ≤ d3) ∨ (d1 ≤ 0 ∧ d2 ≤ 0 ∧ d3 ≤ 0) := by
  rcases abs_cases (d1 + d2 + d3) with ⟨h0, _⟩ | ⟨h0, _⟩ <;>
    rcases abs_cases d1 with ⟨h1, _⟩ | ⟨h1, _⟩ <;>
    rcases abs_cases d2 with ⟨h2, _⟩ | ⟨h2, _⟩ <;>
    rcases abs_cases d3 with ⟨h3, _⟩ | ⟨h3, _⟩ <;>
    rw [h0, h1, h2, h3] at h <;> omega

theorem abs_mul_le_of (x y a b : Int) (hx : |x| ≤ a) (hy : |y| ≤ b) : |x * y| ≤ a * b := by
  rw [abs_mul]
  exact mul_le_mul hx hy (abs_nonneg _) (le_trans (abs_nonneg _) hx)

theorem abs_sub_le_of (x y a b : Int) (hx : |x| ≤ a) (hy : |y| ≤ b) : |x - y| ≤ a + b :=
  (abs_sub x y).trans (add_le_add hx hy)

theorem abs_add_le_of (x y a b : Int) (hx : |x| ≤ a) (hy : |y| ≤ b) : |x + y| ≤ a + b :=
  (abs_add x y).trans (add_le_add hx hy)

/-- For points of pointer-sized magnitude the doubled area is computed
without rounding: it is the absolute value of the exact determinant. -/
theorem area2_eq_abs_det3 (v1 v2 v3 : Point) (h1 : v1.Small) (h2 : v2.Small) (h3 : v3.Small) :
    area2 v1 v2 v3 = |det3 v1 v2 v3| ∧ |det3 v1 v2 v3| ≤ 6 * 10 ^ 14 := by
  obtain ⟨x1, y1⟩ := h1
  obtain ⟨x2, y2⟩ := h2
  obtain ⟨x3, y3⟩ := h3
  have big : (6 : Int) * 10 ^ 14 ≤ 2 ^ 52 := by norm_num
  have d1 := abs_sub_le_of _ _ _ _ y2 y3
  have d2 := abs_sub_le_of _ _ _ _ y3 y1
  have d3 := abs_sub_le_of _ _ _ _ y1 y2
  have p1 := abs_mul_le_of _ _ _ _ x1 d1
  have p2 := abs_mul_le_of _ _ _ _ x2 d2
  have p3 := abs_mul_le_of _ _ _ _ x3 d3
  have s12 := abs_add_le_of _ _ _ _ p1 p2
  have s := abs_add_le_of _ _ _ _ s12 p3
  have c1 : (10 : Int) ^ 7 + 10 ^ 7 ≤ 2 ^ 52 := by norm_num
  have c2 : (10 : Int) ^ 7 * (10 ^ 7 + 10 ^ 7) ≤ 2 ^ 52 := by norm_num
  have c3 : (10 : Int) ^ 7 * (10 ^ 7 + 10 ^ 7) + 10 ^ 7 * (10 ^ 7 + 10 ^ 7) ≤ 2 ^ 52 := by
    norm_num
  have c4 : (10 : Int) ^ 7 * (10 ^ 7 + 10 ^ 7) + 10 ^ 7 * (10 ^ 7 + 10 ^ 7) +
      10 ^ 7 * (10 ^ 7 + 10 ^ 7) = 6 * 10 ^ 14 := by norm_num
  have e1 := fl53_of_abs_le _ (le_trans d1 c1)
  have e2 := fl53_of_abs_le _ (le_trans d2 c1)
  have e3 := fl53_of_abs_le _ (le_trans d3 c1)
  have f1 := fl53_of_abs_le _ (le_trans p1 c2)
  have f2 := fl53_of_abs_le _ (le_trans p2 c2)
  have f3 := fl53_of_abs_le _ (le_trans p3 c2)
  have g1 := fl53_of_abs_le _ (le_trans s12 c3)
  have g2 := fl53_of_abs_le _ (le_trans s (by rw [c4]; exact big))
  refine ⟨?_, ?_⟩
  · unfold area2 det3
    rw [e1, e2, e3, f1, f2, f3, g1, g2]
  · unfold det3
    rw [← c4]
    exact s

/-- For points of pointer-sized magnitude the area-sum test is the exact
equality of the doubled areas: nothing is rounded and the tolerance only
admits equality. -/
theorem pointInTriangle_iff_det3 (p a b c : Point) (hp : p.Small) (ha : a.Small)
    (hb : b.Small) (hc : c.Small) :
    pointInTriangle p a b c = true ↔
      |det3 a b c| = |det3 p b c| + |det3 a p c| + |det3 a b p| := by
  obtain ⟨eA, bA⟩ := area2_eq_abs_det3 a b c ha hb hc
  obtain ⟨eA1, bA1⟩ := area2_eq_abs_det3 p b c hp hb hc
  obtain ⟨eA2, bA2⟩ := area2_eq_abs_det3 a p c ha hp hc
  obtain ⟨eA3, bA3⟩ := area2_eq_abs_det3 a b p ha hb hp
  unfold pointInTriangle
  simp only [decide_eq_true_eq]
  rw [eA, eA1, eA2, eA3]
  have n0 := abs_nonneg (det3 a b c)
  have n1 := abs_nonneg (det3 p b c)
  have n2 := abs_nonneg (det3 a p c)
  have n3 := abs_nonneg (det3 a b p)
  have k14 : (6 : Int) * 10 ^ 14 = 600000000000000 := by norm_num
  have k52 : (2 : Int) ^ 52 = 4503599627370496 := by norm_num
  rw [k14] at bA bA1 bA2 bA3
  generalize |det3 a b c| = A at *
  generalize |det3 p b c| = A1 at *
  generalize |det3 a p c| = A2 at *
  generalize |det3 a b p| = A3 at *
  have r1 : fl53 (A1 + A2) = A1 + A2 :=
    fl53_of_abs_le _ (by rw [abs_le, k52]; constructor <;> omega)
  rw [r1]
  have r2 : fl53 (A1 + A2 + A3) = A1 + A2 + A3 :=
    fl53_of_abs_le _ (by rw [abs_le, k52]; constructor <;> omega)
  rw [r2]
  have r3 : fl53 (A - (A1 + A2 + A3)) = A - (A1 + A2 + A3) :=
    fl53_of_abs_le _ (by rw [abs_le, k52]; constructor <;> omega)
  rw [r3, abs_lt]
  constructor <;> intro h <;> omega

/-- Inside the closed triangle the three sub-areas add up to the area. -/
theorem det3_sum_of_inClosedTriangle (p a b c : Point) (h : InClosedTriangle p a b c) :
    |det3 a b c| = |det3 p b c| + |det3 a p c| + |det3 a b p| := by
  obtain ⟨u, v, w, hu, hv, hw, hsum, hx, hy⟩ := h
  have hw2 : w = 1 - u - v := by linarith
  subst hw2
  have key : ((|det3 a b c| : Int) : ℝ) =
      ((|det3 p b c| + |det3 a p c| + |det3 a b p| : Int) : ℝ) := by
    unfold det3
    push_cast
    rw [hx, hy]
    have e1 : (u * a.x + v * b.x + (1 - u - v) * c.x) * ((b.y : ℝ) - c.y) +
        b.x * (c.y - (u * a.y + v * b.y + (1 - u - v) * c.y)) +
        c.x * (u * a.y + v * b.y + (1 - u - v) * c.y - b.y) =
        u * ((a.x : ℝ) * (b.y - c.y) + b.x * (c.y - a.y) + c.x * (a.y - b.y)) := by ring
    have e2 : (a.x : ℝ) * (u * a.y + v * b.y + (1 - u - v) * c.y - c.y) +
        (u * a.x + v * b.x + (1 - u - v) * c.x) * (c.y - a.y) +
        c.x * (a.y - (u * a.y + v * b.y + (1 - u - v) * c.y)) =
        v * ((a.x : ℝ) * (b.y - c.y) + b.x * (c.y - a.y) + c.x * (a.y - b.y)) := by ring
    have e3 : (a.x : ℝ) * (b.y - (u * a.y + v * b.y + (1 - u - v) * c.y)) +
        b.x * (u * a.y + v * b.y + (1 - u - v) * c.y - a.y) +
        (u * a.x + v * b.x + (1 - u - v) * c.x) * (a.y - b.y) =
        (1 - u - v) * ((a.x : ℝ) * (b.y - c.y) + b.x * (c.y - a.y) + c.x * (a.y - b.y)) := by
      ring
    rw [e1, e2, e3, abs_mul, abs_mul, abs_mul, abs_of_nonneg hu, abs_of_nonneg hv,
      abs_of_nonneg hw]
    ring
  exact_mod_cast key

/-- For a triangle of non-zero area, a point whose three sub-areas add up to
the area lies in the closed triangle. -/
theorem inClosedTriangle_of_det3_sum (p a b c : Point) (hd : det3 a b c ≠ 0)
    (h : |det3 a b c| = |det3 p b c| + |det3 a p c| + |det3 a b p|) :
    InClosedTriangle p a b c := by
  unfold det3 at h hd
  have hsum : a.x * (b.y - c.y) + b.x * (c.y - a.y) + c.x * (a.y - b.y) =
      (p.x * (b.y - c.y) + b.x * (c.y - p.y) + c.x * (p.y - b.y)) +
      (a.x * (p.y - c.y) + p.x * (c.y - a.y) + c.x * (a.y - p.y)) +
      (a.x * (b.y - p.y) + b.x * (p.y - a.y) + p.x * (a.y - b.y)) := by ring
  rw [hsum] at h hd
  generalize hd1 : p.x * (b.y - c.y) + b.x * (c.y - p.y) + c.x * (p.y - b.y) = d1 at h hd
  generalize hd2 : a.x * (p.y - c.y) + p.x * (c.y - a.y) + c.x * (a.y - p.y) = d2 at h hd
  generalize hd3 : a.x * (b.y - p.y) + b.x * (p.y - a.y) + p.x * (a.y - b.y) = d3 at h hd
  have hsigns := abs_sum_eq_sum_abs_signs d1 d2 d3 h
  have hdR : ((d1 + d2 + d3 : Int) : ℝ) ≠ 0 := by exact_mod_cast hd
  push_cast at hdR
  have hx : (d1 + d2 + d3) * p.x = d1 * a.x + d2 * b.x + d3 * c.x := by
    rw [← hd1, ← hd2, ← hd3]; ring
  have hy : (d1 + d2 + d3) * p.y = d1 * a.y + d2 * b.y + d3 * c.y := by
    rw [← hd1, ← hd2, ← hd3]; ring
  have hxR : ((d1 : ℝ) + d2 + d3) * p.x = d1 * a.x + d2 * b.x + d3 * c.x := by
    exact_mod_cast hx
  have hyR : ((d1 : ℝ) + d2 + d3) * p.y = d1 * a.y + d2 * b.y + d3 * c.y := by
    exact_mod_cast hy
  have hnn : ∀ t : Int, (0 ≤ t ∧ 0 ≤ d1 + d2 + d3) ∨ (t ≤ 0 ∧ d1 + d2 + d3 ≤ 0) →
      (0 : ℝ) ≤ (t : ℝ) / ((d1 : ℝ) + d2 + d3) := by
    intro t ht
    rcases ht with ⟨h1, h2⟩ | ⟨h1, h2⟩
    · apply div_nonneg
      · exact_mod_cast h1
      · exact_mod_cast h2
    · apply div_nonneg_of_nonpos
      · exact_mod_cast h1
      · exact_mod_cast h2
  refine ⟨(d1 : ℝ) / ((d1 : ℝ) + d2 + d3), (d2 : ℝ) / ((d1 : ℝ) + d2 + d3),
    (d3 : ℝ) / ((d1 : ℝ) + d2 + d3), ?_, ?_, ?_, ?_, ?_, ?_⟩
  · apply hnn; omega
  · apply hnn; omega
  · apply hnn; omega
  · field_simp
  · field_simp
    linarith
  · field_simp
    linarith

theorem pointInTriangle_of_inClosedTriangle (p a b c : Point) (hp : p.Small) (ha : a.Small)
    (hb : b.Small) (hc : c.Small) (h : InClosedTriangle p a b c) :
    pointInTriangle p a b c = true :=
  (pointInTriangle_iff_det3 p a b c hp ha hb hc).2 (det3_sum_of_inClosedTriangle p a b c h)

theorem inClosedTriangle_of_pointInTriangle (p a b c : Point) (hp : p.Small) (ha : a.Small)
    (hb : b.Small) (hc : c.Small) (hd : det3 a b c ≠ 0)
    (h : pointInTriangle p a b c = true) : InClosedTriangle p a b c :=
  inClosedTriangle_of_det3_sum p a b c hd ((pointInTriangle_iff_det3 p a b c hp ha hb hc).1 h)

theorem inClosedTriangle_bounds (p a b c : Point) (h : InClosedTriangle p a b c) :
    min (min a.y b.y) c.y ≤ p.y ∧ p.y ≤ max (max a.y b.y) c.y ∧
      min (min a.x b.x) c.x ≤ p.x ∧ p.x ≤ max (max a.x b.x) c.x := by
  obtain ⟨u, v, w, hu, hv, hw, hsum, hx, hy⟩ := h
  have lower : ∀ (m pa pb pc pp : Int), m ≤ pa → m ≤ pb → m ≤ pc →
      (pp : ℝ) = u * pa + v * pb + w * pc → m ≤ pp := by
    intro m pa pb pc pp h1 h2 h3 he
    have h1R : (m : ℝ) ≤ pa := by exact_mod_cast h1
    have h2R : (m : ℝ) ≤ pb := by exact_mod_cast h2
    have h3R : (m : ℝ) ≤ pc := by exact_mod_cast h3
    have : (m : ℝ) ≤ pp := by
      have hm : (m : ℝ) = u * m + v * m + w * m := by
        rw [← add_mul, ← add_mul, hsum, one_mul]
      rw [he]
      linarith [mul_le_mul_of_nonneg_left h1R hu, mul_le_mul_of_nonneg_left h2R hv,
        mul_le_mul_of_nonneg_left h3R hw]
    exact_mod_cast this
  have upper : ∀ (m pa pb pc pp : Int), pa ≤ m → pb ≤ m → pc ≤ m →
      (pp : ℝ) = u * pa + v * pb + w * pc → pp ≤ m := by
    intro m pa pb pc pp h1 h2 h3 he
    have h1R : (pa : ℝ) ≤ m := by exact_mod_cast h1
    have h2R : (pb : ℝ) ≤ m := by exact_mod_cast h2
    have h3R : (pc : ℝ) ≤ m := by exact_mod_cast h3
    have : (pp : ℝ) ≤ m := by
      have hm : (m : ℝ) = u * m + v * m + w * m := by
        rw [← add_mul, ← add_mul, hsum, one_mul]
      rw [he]
      linarith [mul_le_mul_of_nonneg_left h1R hu, mul_le_mul_of_nonneg_left h2R hv,
        mul_le_mul_of_nonneg_left h3R hw]
    exact_mod_cast this
  refine ⟨lower _ a.y b.y c.y p.y ?_ ?_ ?_ hy, upper _ a.y b.y c.y p.y ?_ ?_ ?_ hy,
    lower _ a.x b.x c.x p.x ?_ ?_ ?_ hx, upper _ a.x b.x c.x p.x ?_ ?_ ?_ hx⟩ <;>
    simp

theorem mem_calculateBoxesInTriangle_scan (start end_ b : Cell) :
    b ∈ calculateBoxesInTriangle start end_ ↔
      triangleEstimated start end_ ≤ maxPoints ∧
      (max 0 (min (min start.row start.row) end_.row) ≤ b.row ∧
        b.row ≤ min (layoutHeight / boxSize - 1) (max (max start.row start.row) end_.row)) ∧
      (max 0 (min (min (triBaseLeft start end_).x (triBaseRight start end_).x) end_.col) ≤
          b.col ∧
        b.col ≤ min (layoutWidth / boxSize - 1)
          (max (max (triBaseLeft start end_).x (triBaseRight start end_).x) end_.col)) ∧
      pointInTriangle ⟨b.col, b.row⟩ (triBaseLeft start end_) (triBaseRight start end_)
        (triApex start end_) = true := by
  unfold calculateBoxesInTriangle triangleEstimated triangleBounds
  simp only [triBaseLeft, triBaseRight, triApex]
  split
  · rename_i hbig
    constructor
    · intro h
      simp at h
    · rintro ⟨hle, _⟩
      exact absurd hbig (not_lt.2 hle)
  · rename_i hsmall
    simp only [List.mem_flatMap, mem_loopRange]
    constructor
    · rintro ⟨r, hr, c, hc, hb⟩
      split at hb
      · rename_i hin
        rw [List.mem_singleton] at hb
        subst hb
        exact ⟨not_lt.1 hsmall, hr, hc, hin⟩
      · simp at hb
    · rintro ⟨_, hr, hc, hin⟩
      refine ⟨b.row, hr, b.col, hc, ?_⟩
      rw [if_pos hin]
      exact List.mem_singleton.2 rfl

/-- A number between two integers is a convex combination of them. -/
theorem segment_weights (s t r : Int) (h1 : min s t ≤ r) (h2 : r ≤ max s t) :
    ∃ u w : ℝ, 0 ≤ u ∧ 0 ≤ w ∧ u + w = 1 ∧ (r : ℝ) = u * s + w * t := by
  rcases lt_trichotomy s t with hst | hst | hst
  · rw [min_eq_left hst.le] at h1
    rw [max_eq_right hst.le] at h2
    have hpos : (0 : ℝ) < (t : ℝ) - s := by
      have : (s : ℝ) < t := by exact_mod_cast hst
      linarith
    have h1R : (s : ℝ) ≤ r := by exact_mod_cast h1
    have h2R : (r : ℝ) ≤ t := by exact_mod_cast h2
    refine ⟨((t : ℝ) - r) / ((t : ℝ) - s), ((r : ℝ) - s) / ((t : ℝ) - s), ?_, ?_, ?_, ?_⟩
    · exact div_nonneg (by linarith) hpos.le
    · exact div_nonneg (by linarith) hpos.le
    · field_simp
    · field_simp
      ring
  · subst hst
    rw [min_self] at h1
    rw [max_self] at h2
    have hr : r = s := le_antisymm h2 h1
    subst hr
    exact ⟨1, 0, by norm_num, le_refl _, by norm_num, by ring⟩
  · rw [min_eq_right hst.le] at h1
    rw [max_eq_left hst.le] at h2
    have hpos : (0 : ℝ) < (s : ℝ) - t := by
      have : (t : ℝ) < s := by exact_mod_cast hst
      linarith
    have h1R : (t : ℝ) ≤ r := by exact_mod_cast h1
    have h2R : (r : ℝ) ≤ s := by exact_mod_cast h2
    refine ⟨((r : ℝ) - t) / ((s : ℝ) - t), ((s : ℝ) - r) / ((s : ℝ) - t), ?_, ?_, ?_, ?_⟩
    · exact div_nonneg (by linarith) hpos.le
    · exact div_nonneg (by linarith) hpos.le
    · field_simp
    · field_simp
      ring

/-- When the synthesized triangle is degenerate (zero horizontal drag, or
apex on the base row) it is an axis-parallel segment, and every grid point of
its bounding box lies on it. -/
theorem inClosedTriangle_degenerate (start end_ : Cell) (r c : Int)
    (hdeg : |end_.col - start.col| = 0 ∨ end_.row = start.row)
    (hr1 : min (min start.row start.row) end_.row ≤ r)
    (hr2 : r ≤ max (max start.row start.row) end_.row)
    (hc1 : min (min (start.col - |end_.col - start.col|)
      (start.col + |end_.col - start.col|)) end_.col ≤ c)
    (hc2 : c ≤ max (max (start.col - |end_.col - start.col|)
      (start.col + |end_.col - start.col|)) end_.col) :
    InClosedTriangle ⟨c, r⟩ ⟨start.col - |end_.col - start.col|, start.row⟩
      ⟨start.col + |end_.col - start.col|, start.row⟩ ⟨end_.col, end_.row⟩ := by
  unfold InClosedTriangle
  simp only
  rw [min_self] at hr1
  rw [max_self] at hr2
  rcases hdeg with h0 | h0
  · have hcol : end_.col = start.col := by
      have := abs_eq_zero.1 h0
      omega
    rw [h0, hcol] at hc1 hc2
    simp only [sub_zero, add_zero, min_self, max_self] at hc1 hc2
    have hc : c = start.col := le_antisymm hc2 hc1
    obtain ⟨u, w, hu, hw, hsum, hy⟩ := segment_weights start.row end_.row r hr1 hr2
    refine ⟨u, 0, w, hu, le_refl _, hw, by linarith, ?_, ?_⟩
    · rw [h0, hcol, hc]
      push_cast
      have : (start.col : ℝ) = (u + w) * start.col := by rw [hsum, one_mul]
      linarith
    · rw [hy]
      ring
  · rw [h0, min_self] at hr1
    rw [h0, max_self] at hr2
    have hr : r = start.row := le_antisymm hr2 hr1
    have hc1' : min (start.col - |end_.col - start.col|)
        (start.col + |end_.col - start.col|) ≤ c := by
      rcases abs_cases (end_.col - start.col) with ⟨he, _⟩ | ⟨he, _⟩ <;>
        rw [he] at hc1 ⊢ <;> omega
    have hc2' : c ≤ max (start.col - |end_.col - start.col|)
        (start.col + |end_.col - start.col|) := by
      rcases abs_cases (end_.col - start.col) with ⟨he, _⟩ | ⟨he, _⟩ <;>
        rw [he] at hc2 ⊢ <;> omega
    obtain ⟨u, w, hu, hw, hsum, hx⟩ := segment_weights _ _ c hc1' hc2'
    refine ⟨u, w, 0, hu, hw, le_refl _, by linarith, ?_, ?_⟩
    · rw [hx]
      ring
    · rw [h0, hr]
      have : (start.row : ℝ) = (u + w) * start.row := by rw [hsum, one_mul]
      linarith

theorem triangle_det3 (start end_ : Cell) :
    det3 ⟨start.col - |end_.col - start.col|, start.row⟩
        ⟨start.col + |end_.col - start.col|, start.row⟩ ⟨end_.col, end_.row⟩ =
      2 * |end_.col - start.col| * (end_.row - start.row) := by
  simp only [det3]
  ring

/-- For pointer-sized cells the three vertices are computed without
rounding, and they are pointer-sized points. -/
theorem triangle_vertices_small (start end_ : Cell) (hs : start.Small) (he : end_.Small) :
    triBaseLeft start end_ = ⟨start.col - |end_.col - start.col|, start.row⟩ ∧
      triBaseRight start end_ = ⟨start.col + |end_.col - start.col|, start.row⟩ ∧
      (triBaseLeft start end_).Small ∧ (triBaseRight start end_).Small ∧
      (triApex start end_).Small := by
  obtain ⟨hs1, hs2⟩ := hs
  obtain ⟨he1, he2⟩ := he
  have k6 : (10 : Int) ^ 6 = 1000000 := by norm_num
  have k7 : (10 : Int) ^ 7 = 10000000 := by norm_num
  have k52 : (2 : Int) ^ 52 = 4503599627370496 := by norm_num
  rw [k6] at hs1 hs2 he1 he2
  have hs1' := abs_le.1 hs1
  have hs2' := abs_le.1 hs2
  have he1' := abs_le.1 he1
  have he2' := abs_le.1 he2
  have e0 : fl53 (end_.col - start.col) = end_.col - start.col :=
    fl53_of_abs_le _ (by rw [abs_le, k52]; constructor <;> omega)
  have hd : |end_.col - start.col| ≤ 2000000 := by
    rw [abs_le]; constructor <;> omega
  have hd0 := abs_nonneg (end_.col - start.col)
  have eL : fl53 (start.col - |end_.col - start.col|) = start.col - |end_.col - start.col| :=
    fl53_of_abs_le _ (by rw [abs_le, k52]; constructor <;> omega)
  have eR : fl53 (start.col + |end_.col - start.col|) = start.col + |end_.col - start.col| :=
    fl53_of_abs_le _ (by rw [abs_le, k52]; constructor <;> omega)
  have hL : triBaseLeft start end_ = ⟨start.col - |end_.col - start.col|, start.row⟩ := by
    simp only [triBaseLeft, e0, eL]
  have hR : triBaseRight start end_ = ⟨start.col + |end_.col - start.col|, start.row⟩ := by
    simp only [triBaseRight, e0, eR]
  refine ⟨hL, hR, ?_, ?_, ?_⟩
  · rw [hL]
    unfold Point.Small
    simp only
    rw [k7]
    constructor <;> rw [abs_le] <;> constructor <;> omega
  · rw [hR]
    unfold Point.Small
    simp only
    rw [k7]
    constructor <;> rw [abs_le] <;> constructor <;> omega
  · unfold Point.Small triApex
    simp only
    rw [k7]
    constructor <;> rw [abs_le] <;> constructor <;> omega

theorem point_small_of_inGrid (b : Cell) (hb : InGrid b) :
    (⟨b.col, b.row⟩ : Point).Small := by
  rw [inGrid_iff] at hb
  unfold Point.Small
  simp only
  have k7 : (10 : Int) ^ 7 = 10000000 := by norm_num
  rw [k7]
  constructor <;> rw [abs_le] <;> constructor <;> omega

/-- For pointer-sized cells and an estimate within the safety threshold the
triangle is exact: a cell is returned if and only if it lies in the grid and
its point lies in the closed triangle. -/
theorem mem_calculateBoxesInTriangle (start end_ b : Cell)
    (hest : triangleEstimated start end_ ≤ 3000) (hs : start.Small) (he : end_.Small) :
    b ∈ calculateBoxesInTriangle start end_ ↔
      InGrid b ∧ InClosedTriangle ⟨b.col, b.row⟩
        ⟨start.col - |end_.col - start.col|, start.row⟩
        ⟨start.col + |end_.col - start.col|, start.row⟩ ⟨end_.col, end_.row⟩ := by
  obtain ⟨hL, hR, sL, sR, sA⟩ := triangle_vertices_small start end_ hs he
  rw [mem_calculateBoxesInTriangle_scan]
  rw [hL] at sL ⊢
  rw [hR] at sR ⊢
  have hA : triApex start end_ = ⟨end_.col, end_.row⟩ := rfl
  rw [hA] at sA ⊢
  simp only
  rw [gridRows_eq, gridCols_eq]
  constructor
  · rintro ⟨_, ⟨hr1, hr2⟩, ⟨hc1, hc2⟩, hin⟩
    have hgrid : InGrid b := by
      rw [inGrid_iff]
      have := le_trans (le_max_left _ _) hr1
      have := le_trans hr2 (min_le_left _ _)
      have := le_trans (le_max_left _ _) hc1
      have := le_trans hc2 (min_le_left _ _)
      omega
    refine ⟨hgrid, ?_⟩
    have sP := point_small_of_inGrid b hgrid
    by_cases hdeg : 2 * |end_.col - start.col| * (end_.row - start.row) = 0
    · apply inClosedTriangle_degenerate
      · rcases mul_eq_zero.1 hdeg with h | h
        · left; omega
        · right; omega
      · exact le_trans (le_max_right _ _) hr1
      · exact le_trans hr2 (min_le_right _ _)
      · exact le_trans (le_max_right _ _) hc1
      · exact le_trans hc2 (min_le_right _ _)
    · apply inClosedTriangle_of_pointInTriangle _ _ _ _ sP sL sR sA _ hin
      rw [triangle_det3]
      exact hdeg
  · rintro ⟨hgrid, htri⟩
    have sP := point_small_of_inGrid b hgrid
    rw [inGrid_iff] at hgrid
    obtain ⟨g1, g2, g3, g4⟩ := hgrid
    obtain ⟨b1, b2, b3, b4⟩ := inClosedTriangle_bounds _ _ _ _ htri
    simp only at b1 b2 b3 b4
    exact ⟨hest, ⟨max_le g1 b1, le_min (by omega) b2⟩, ⟨max_le g3 b3, le_min (by omega) b4⟩,
      pointInTriangle_of_inClosedTriangle _ _ _ _ sP sL sR sA htri⟩

theorem inGrid_of_mem_calculateBoxesInTriangle (start end_ b : Cell)
    (h : b ∈ calculateBoxesInTriangle start end_) : InGrid b := by
  rw [mem_calculateBoxesInTriangle_scan, gridRows_eq, gridCols_eq] at h
  obtain ⟨_, ⟨hr1, hr2⟩, ⟨hc1, hc2⟩, _⟩ := h
  rw [inGrid_iff]
  have := le_trans (le_max_left _ _) hr1
  have := le_trans hr2 (min_le_left _ _)
  have := le_trans (le_max_left _ _) hc1
  have := le_trans hc2 (min_le_left _ _)
  omega

theorem calculateBoxesInTriangle_of_estimated_gt (start end_ : Cell)
    (h : triangleEstimated start end_ > maxPoints) :
    calculateBoxesInTriangle start end_ = [] := by
  apply List.eq_nil_iff_forall_not_mem.2
  intro b hb
  rw [mem_calculateBoxesInTriangle_scan] at hb
  exact absurd h (not_lt.2 hb.1)

/-! ## Gesture controller: pencil strokes and shape stamps -/

theorem any_sameCell_iff (l : List Cell) (e : Cell) :
    l.any (fun b => b.row == e.row && b.col == e.col) = true ↔ e ∈ l := by
  rw [List.any_eq_true]
  constructor
  · rintro ⟨b, hb, h⟩
    simp only [Bool.and_eq_true, beq_iff_eq] at h
    have : b = e := by
      cases b; cases e
      simp only [Cell.mk.injEq]
      exact h
    exact this ▸ hb
  · intro h
    exact ⟨e, h, by simp⟩

theorem addsCell_singleton_iff (st : Store) (e : Cell) :
    AddsCell st [e] ↔ e ∉ st.selectedBoxes := by
  unfold AddsCell
  simp only [List.mem_singleton, exists_eq_left, boxKey_mem_map_iff]

theorem addBoxToSelection_singleton_new (st : Store) (e : Cell) (h : e ∉ st.selectedBoxes) :
    addBoxToSelection st [e] =
      { selectedBoxes := st.selectedBoxes ++ [e], history := st.history ++ [st.selectedBoxes] } := by
  have hs := addBoxToSelection_selectedBoxes st [e]
  have hh := addBoxToSelection_history st [e]
  rw [if_pos ((addsCell_singleton_iff st e).2 h)] at hh
  have hf : [e].filter (fun b => decide (boxKey b ∉ st.selectedBoxes.map boxKey)) = [e] := by
    rw [List.filter_cons_of_pos]
    · rfl
    · simp only [decide_eq_true_eq]
      rw [boxKey_mem_map_iff]
      exact h
  rw [hf] at hs
  cases hr : addBoxToSelection st [e] with
  | mk S2 H2 =>
    rw [hr] at hs hh
    simp only at hs hh
    rw [hs, hh]

theorem pencilMoveUpdate_eq (st : Store) (e : Cell) :
    pencilMoveUpdate st e = addBoxToSelection st [e] := by
  by_cases h : e ∈ st.selectedBoxes
  · have hany := (any_sameCell_iff st.selectedBoxes e).2 h
    have hno : ¬ AddsCell st [e] := fun hc => (addsCell_singleton_iff st e).1 hc h
    rw [addBoxToSelection_of_not_addsCell st [e] hno]
    simp only [pencilMoveUpdate, hany]
    rfl
  · have hany : st.selectedBoxes.any (fun b => b.row == e.row && b.col == e.col) = false := by
      rw [Bool.eq_false_iff]
      exact fun hc => h ((any_sameCell_iff st.selectedBoxes e).1 hc)
    rw [addBoxToSelection_singleton_new st e h]
    simp only [pencilMoveUpdate, hany]
    rfl

theorem handleMouseDown_store_pencil (g : GState) (c : Cell) (ht : g.tool = Tool.pencil) :
    (handleMouseDown g c).store = addBoxToSelection g.store [c] := by
  simp [handleMouseDown, ht]

theorem handleMouseDown_store_shape (g : GState) (c : Cell) (ht : g.tool ≠ Tool.pencil) :
    (handleMouseDown g c).store = g.store := by
  simp [handleMouseDown, ht]

theorem handleMouseDown_fields (g : GState) (c : Cell) :
    (handleMouseDown g c).tool = g.tool ∧ (handleMouseDown g c).startPoint = some c ∧
      (handleMouseDown g c).isDragging = true ∧
      (handleMouseDown g c).previewBoxes = g.previewBoxes ∧
      (handleMouseDown g c).pending = g.pending ∧
      (handleMouseDown g c).lastDrawnBox = if g.tool = Tool.pencil then some c else none := by
  unfold handleMouseDown
  by_cases ht : g.tool = Tool.pencil <;> simp [ht]

theorem handleMouseUp_store (g : GState) (a c : Cell) (ha : g.startPoint = some a) :
    (handleMouseUp g c).store =
      match shapeBoxes g.tool a c with
      | some boxes => addBoxToSelection g.store boxes
      | none => g.store := by
  simp [handleMouseUp, ha]

theorem addAll_append (st : Store) (xs ys : List (List Cell)) :
    addAll st (xs ++ ys) = addAll (addAll st xs) ys := by
  simp [addAll, List.foldl_append]

theorem eachAddsCell_append (st : Store) (xs ys : List (List Cell)) :
    EachAddsCell st (xs ++ ys) ↔ EachAddsCell st xs ∧ EachAddsCell (addAll st xs) ys := by
  induction xs generalizing st with
  | nil => simp [EachAddsCell, addAll]
  | cons x rest ih =>
    show AddsCell st x ∧ EachAddsCell (addBoxToSelection st x) (rest ++ ys) ↔
      (AddsCell st x ∧ EachAddsCell (addBoxToSelection st x) rest) ∧
        EachAddsCell (addAll (addBoxToSelection st x) rest) ys
    rw [ih (addBoxToSelection st x), and_assoc]

/-- Undoing `j` of a run of effective additions leaves the state reached by
the additions before them. -/
theorem undoTimes_addAll_take (st : Store) (xs : List (List Cell)) :
    EachAddsCell st xs → ∀ j, j ≤ xs.length →
      undoTimes j (addAll st xs) = addAll st (xs.take (xs.length - j)) := by
  induction xs using List.reverseRecOn with
  | nil =>
    intro _ j hj
    have : j = 0 := by simpa using hj
    subst this
    rfl
  | append_singleton ys y ih =>
    intro h j hj
    obtain ⟨hys, hy⟩ := (eachAddsCell_append st ys [y]).1 h
    cases j with
    | zero =>
      rw [Nat.sub_zero, List.take_length]
      rfl
    | succ k =>
      have hk : k ≤ ys.length := by
        simp only [List.length_append, List.length_singleton] at hj
        omega
      show undoTimes k (handleUndo (addAll st (ys ++ [y]))) = _
      rw [addAll_append]
      show undoTimes k (handleUndo (addBoxToSelection (addAll st ys) y)) = _
      rw [handleUndo_addBoxToSelection _ _ hy.1, ih hys k hk]
      have hlen : (ys ++ [y]).length - (k + 1) = ys.length - k := by
        simp only [List.length_append, List.length_singleton]
        omega
      rw [hlen, List.take_append_of_le_length (Nat.sub_le _ _)]

/-- A run of one-cell additions of pairwise distinct new cells appends them
in order, and each addition is effective. -/
theorem addAll_singletons (ps : List Cell) (st : Store) (hnd : ps.Nodup)
    (hnew : ∀ p ∈ ps, p ∉ st.selectedBoxes) :
    (addAll st (ps.map fun p => [p])).selectedBoxes = st.selectedBoxes ++ ps ∧
      (addAll st (ps.map fun p => [p])).history.length = st.history.length + ps.length ∧
      EachAddsCell st (ps.map fun p => [p]) := by
  induction ps generalizing st with
  | nil => exact ⟨by simp [addAll], by simp [addAll], trivial⟩
  | cons p rest ih =>
    have hp : p ∉ st.selectedBoxes := hnew p (List.mem_cons_self _ _)
    have hstep := addBoxToSelection_singleton_new st p hp
    obtain ⟨hprest, hndrest⟩ := List.nodup_cons.1 hnd
    have hnew2 : ∀ q ∈ rest, q ∉ (addBoxToSelection st [p]).selectedBoxes := by
      intro q hq hmem
      rw [hstep] at hmem
      simp only [List.mem_append, List.mem_singleton] at hmem
      rcases hmem with h1 | h1
      · exact hnew q (List.mem_cons_of_mem _ hq) h1
      · exact hprest (h1 ▸ hq)
    obtain ⟨i1, i2, i3⟩ := ih (addBoxToSelection st [p]) hndrest hnew2
    refine ⟨?_, ?_, ?_⟩
    · show (addAll (addBoxToSelection st [p]) (rest.map fun p => [p])).selectedBoxes = _
      rw [i1, hstep]
      simp
    · show (addAll (addBoxToSelection st [p]) (rest.map fun p => [p])).history.length = _
      have hlen : (addBoxToSelection st [p]).history.length = st.history.length + 1 := by
        rw [hstep]
        simp
      rw [i2, hlen, List.length_cons]
      omega
    · exact ⟨(addsCell_singleton_iff st p).2 hp, i3⟩

/-- Pencil moves through cells that differ from the last drawn one commit one
`addBoxToSelection([cell])` each. -/
theorem foldl_handleMouseMove_pencil (todo : List Cell) (g : GState)
    (ht : g.tool = Tool.pencil) (hd : g.isDragging = true) (hs : g.startPoint ≠ none)
    (hlast : ∀ l, g.lastDrawnBox = some l → l ∉ todo) (hnd : todo.Nodup) :
    (todo.foldl handleMouseMove g).store = addAll g.store (todo.map fun p => [p]) ∧
      (todo.foldl handleMouseMove g).tool = Tool.pencil ∧
      (todo.foldl handleMouseMove g).startPoint = g.startPoint := by
  induction todo generalizing g with
  | nil => exact ⟨rfl, ht, rfl⟩
  | cons p rest ih =>
    obtain ⟨a, ha⟩ := Option.ne_none_iff_exists'.1 hs
    have hentered : (match g.lastDrawnBox with
        | none => true
        | some last => last.row != p.row || last.col != p.col) = true := by
      cases hl : g.lastDrawnBox with
      | none => rfl
      | some l =>
        have hne : l ≠ p := fun e => hlast l hl (e ▸ List.mem_cons_self _ _)
        simp only [Bool.or_eq_true, bne_iff_ne, ne_eq]
        by_contra hcon
        push_neg at hcon
        apply hne
        cases l; cases p
        simp only [Cell.mk.injEq]
        exact hcon
    have hstep : handleMouseMove g p =
        { g with lastDrawnBox := some p, store := pencilMoveUpdate g.store p } := by
      simp only [handleMouseMove, hd, ha, ht, if_true, hentered]
    obtain ⟨hprest, hndrest⟩ := List.nodup_cons.1 hnd
    have := ih (handleMouseMove g p) (by rw [hstep]; exact ht) (by rw [hstep]; exact hd)
      (by rw [hstep]; exact hs)
      (by
        intro l hl
        rw [hstep] at hl
        simp only [Option.some.injEq] at hl
        exact hl ▸ hprest)
      hndrest
    obtain ⟨j1, j2, j3⟩ := this
    refine ⟨?_, j2, ?_⟩
    · show (rest.foldl handleMouseMove (handleMouseMove g p)).store = _
      rw [j1, hstep]
      show addAll (pencilMoveUpdate g.store p) _ = addAll (addBoxToSelection g.store [p]) _
      rw [pencilMoveUpdate_eq]
    · show (rest.foldl handleMouseMove (handleMouseMove g p)).startPoint = _
      rw [j3, hstep]

/-! ## Duplicate freedom and zero-size drags of the rasterizers -/

theorem mem_scanRow (cols : List Int) (P : Int → Prop) [DecidablePred P] (r : Int) (b : Cell)
    (h : b ∈ cols.flatMap fun c => if P c then [({ row := r, col := c } : Cell)] else []) :
    b.row = r ∧ b.col ∈ cols := by
  rw [List.mem_flatMap] at h
  obtain ⟨c, hc, hb⟩ := h
  split at hb
  · rw [List.mem_singleton] at hb
    subst hb
    exact ⟨rfl, hc⟩
  · simp at hb

theorem nodup_scanRow (cols : List Int) (P : Int → Prop) [DecidablePred P] (r : Int)
    (hc : cols.Nodup) :
    (cols.flatMap fun c => if P c then [({ row := r, col := c } : Cell)] else []).Nodup := by
  rw [List.nodup_flatMap]
  refine ⟨?_, ?_⟩
  · intro c _
    split
    · exact List.nodup_singleton _
    · exact List.nodup_nil
  · refine hc.imp ?_
    intro c1 c2 hne
    simp only [Function.onFun]
    intro b hb1 hb2
    split at hb1
    · split at hb2
      · rw [List.mem_singleton] at hb1 hb2
        rw [hb1, Cell.mk.injEq] at hb2
        exact hne hb2.2
      · simp at hb2
    · simp at hb1

/-- A row-by-row scan that pushes `{ row: r, col: c }` for the positions that
pass a test never pushes the same cell twice. -/
theorem nodup_scan (rows cols : List Int) (P : Int → Int → Prop)
    [∀ r, DecidablePred (P r)] (hr : rows.Nodup) (hc : cols.Nodup) :
    (rows.flatMap fun r =>
      cols.flatMap fun c => if P r c then [({ row := r, col := c } : Cell)] else []).Nodup := by
  rw [List.nodup_flatMap]
  refine ⟨fun r _ => nodup_scanRow cols (P r) r hc, ?_⟩
  refine hr.imp ?_
  intro r1 r2 hne
  simp only [Function.onFun]
  intro b hb1 hb2
  have h1 := (mem_scanRow cols (P r1) r1 b hb1).1
  have h2 := (mem_scanRow cols (P r2) r2 b hb2).1
  exact hne (h1.symm.trans h2)

theorem nodup_calculateBoxesInCircle (start end_ : Cell) :
    (calculateBoxesInCircle start end_).Nodup := by
  unfold calculateBoxesInCircle
  exact nodup_scan _ _ _ (nodup_loopRange _ _) (nodup_loopRange _ _)

theorem nodup_calculateBoxesInTriangle (start end_ : Cell) :
    (calculateBoxesInTriangle start end_).Nodup := by
  unfold calculateBoxesInTriangle triangleBounds
  simp only
  split
  · exact List.nodup_nil
  · exact nodup_scan _ _
      (fun r c => pointInTriangle { x := c, y := r } (triBaseLeft start end_)
        (triBaseRight start end_) (triApex start end_) = true)
      (nodup_loopRange _ _) (nodup_loopRange _ _)

theorem noDupCells_shapeBoxes (tool : Tool) (start end_ : Cell) (boxes : List Cell)
    (h : shapeBoxes tool start end_ = some boxes) : NoDupCells boxes := by
  rw [noDupCells_iff_nodup]
  cases tool with
  | pencil => simp [shapeBoxes] at h
  | circle =>
    simp only [shapeBoxes, Option.some.injEq] at h
    exact h ▸ nodup_calculateBoxesInCircle start end_
  | rectangle =>
    simp only [shapeBoxes, Option.some.injEq] at h
    exact h ▸ nodup_calculateBoxesInRectangle start end_
  | triangle =>
    simp only [shapeBoxes, Option.some.injEq] at h
    exact h ▸ nodup_calculateBoxesInTriangle start end_

theorem eq_singleton_of_nodup_of_mem_iff {α : Type} (l : List α) (p : α) (hnd : l.Nodup)
    (hmem : ∀ b, b ∈ l ↔ b = p) : l = [p] := by
  have hperm : l.Perm [p] :=
    (List.perm_ext_iff_of_nodup hnd (List.nodup_singleton p)).2
      (fun b => by rw [hmem b, List.mem_singleton])
  exact List.perm_singleton.1 hperm

theorem cell_ext (b p : Cell) (hr : b.row = p.row) (hc : b.col = p.col) : b = p := by
  cases b; cases p
  simp only [Cell.mk.injEq]
  exact ⟨hr, hc⟩

theorem calculateBoxesInRectangle_self (p : Cell) : calculateBoxesInRectangle p p = [p] := by
  apply eq_singleton_of_nodup_of_mem_iff _ _ (nodup_calculateBoxesInRectangle p p)
  intro b
  rw [mem_calculateBoxesInRectangle, min_self, max_self, min_self, max_self]
  constructor
  · rintro ⟨h1, h2, h3, h4⟩
    exact cell_ext b p (le_antisymm h2 h1) (le_antisymm h4 h3)
  · rintro rfl
    exact ⟨le_refl _, le_refl _, le_refl _, le_refl _⟩

theorem cell_small_of_inGrid (p : Cell) (hp : InGrid p) : p.Small := by
  rw [inGrid_iff] at hp
  unfold Cell.Small
  have k6 : (10 : Int) ^ 6 = 1000000 := by norm_num
  rw [k6]
  constructor <;> rw [abs_le] <;> constructor <;> omega

theorem calculateBoxesInCircle_self (p : Cell) (hp : InGrid p) :
    calculateBoxesInCircle p p = [p] := by
  have hs := cell_small_of_inGrid p hp
  rw [inGrid_iff] at hp
  apply eq_singleton_of_nodup_of_mem_iff _ _ (nodup_calculateBoxesInCircle p p)
  intro b
  rw [mem_calculateBoxesInCircle p p b hs hs]
  constructor
  · rintro ⟨h1, _⟩
    have e1 : (2 * b.col - p.col - p.col) ^ 2 = 4 * (b.col - p.col) ^ 2 := by ring
    have e2 : (2 * b.row - p.row - p.row) ^ 2 = 4 * (b.row - p.row) ^ 2 := by ring
    rw [e1, e2, sub_self, sub_self] at h1
    norm_num at h1
    have hA := sq_nonneg (b.col - p.col)
    have hB := sq_nonneg (b.row - p.row)
    have hc0 : (b.col - p.col) ^ 2 = 0 := le_antisymm (by linarith) hA
    have hr0 : (b.row - p.row) ^ 2 = 0 := le_antisymm (by linarith) hB
    have hc := sq_eq_zero_iff.1 hc0
    have hr := sq_eq_zero_iff.1 hr0
    exact cell_ext b p (by omega) (by omega)
  · rintro rfl
    refine ⟨?_, hp⟩
    have e1 : 2 * b.col - b.col - b.col = 0 := by ring
    have e2 : 2 * b.row - b.row - b.row = 0 := by ring
    rw [e1, e2, sub_self, sub_self]

theorem triangleEstimated_self (p : Cell) (hp : InGrid p) : triangleEstimated p p = 1 := by
  have hs := cell_small_of_inGrid p hp
  obtain ⟨hL, hR, _, _, _⟩ := triangle_vertices_small p p hs hs
  rw [inGrid_iff] at hp
  obtain ⟨g1, g2, g3, g4⟩ := hp
  unfold triangleEstimated triangleBounds
  rw [hL, hR]
  simp only [triApex, sub_self, abs_zero, sub_zero, add_zero, min_self, max_self,
    gridRows_eq, gridCols_eq]
  have e1 : max 0 p.row = p.row := max_eq_right g1
  have e2 : min (125 - 1) p.row = p.row := min_eq_right (by omega)
  have e3 : max 0 p.col = p.col := max_eq_right g3
  have e4 : min (250 - 1) p.col = p.col := min_eq_right (by omega)
  have f0 : fl53 0 = 0 := fl53_of_abs_le 0 (by norm_num)
  have f1 : fl53 1 = 1 := fl53_of_abs_le 1 (by norm_num)
  rw [e1, e2, e3, e4, sub_self, sub_self, f0, zero_add, f1, mul_one, f1]

theorem calculateBoxesInTriangle_self (p : Cell) (hp : InGrid p) :
    calculateBoxesInTriangle p p = [p] := by
  have hs := cell_small_of_inGrid p hp
  have hest : triangleEstimated p p ≤ 3000 := by
    rw [triangleEstimated_self p hp]
    norm_num
  apply eq_singleton_of_nodup_of_mem_iff _ _ (nodup_calculateBoxesInTriangle p p)
  intro b
  rw [mem_calculateBoxesInTriangle p p b hest hs hs]
  constructor
  · rintro ⟨_, htri⟩
    obtain ⟨b1, b2, b3, b4⟩ := inClosedTriangle_bounds _ _ _ _ htri
    simp only [sub_self, abs_zero, sub_zero, add_zero, min_self, max_self] at b1 b2 b3 b4
    exact cell_ext b p (le_antisymm b2 b1) (le_antisymm b4 b3)
  · rintro rfl
    refine ⟨hp, ?_⟩
    apply inClosedTriangle_degenerate b b b.row b.col (Or.inr rfl)
    · simp only [min_self, le_refl]
    · simp only [max_self, le_refl]
    · simp only [sub_self, abs_zero, sub_zero, add_zero, min_self, le_refl]
    · simp only [sub_self, abs_zero, sub_zero, add_zero, max_self, le_refl]

/-! ## Inputs beyond pointer range, where rounding shows -/

set_option maxRecDepth 100000 in
/-- With `start = (row 0, col 0)` and `end = (row 0, col 2^27)` the centre is
`(2^26, 0)` and the radius `2^26`; for the cell `(row 1, col 0)` the distance
`Math.sqrt(2^52 + 1)` rounds to `2^26`, so the cell passes the test. -/
theorem calculateBoxesInCircle_far_mem :
    (⟨1, 0⟩ : Cell) ∈ calculateBoxesInCircle ⟨0, 0⟩ ⟨0, 134217728⟩ := by
  rw [mem_calculateBoxesInCircle_scan]
  decide

/-- The point `(105, 0)` lies on the edge from `(105, -131779456)` to
`(105, 1)`. -/
theorem inClosedTriangle_far :
    InClosedTriangle ⟨105, 0⟩ ⟨105, -131779456⟩ ⟨106123415, -131779456⟩ ⟨105, 1⟩ := by
  refine ⟨1 / 131779457, 0, 131779456 / 131779457, by norm_num, le_refl _, by norm_num,
    by norm_num, ?_, ?_⟩
  · simp only
    push_cast
    norm_num
  · simp only
    push_cast
    norm_num

/-- At these magnitudes the products of the area formula exceed `2^53` and
are rounded; the rounded areas differ by one unit, so the test fails. -/
theorem pointInTriangle_far :
    pointInTriangle ⟨105, 0⟩ ⟨105, -131779456⟩ ⟨106123415, -131779456⟩ ⟨105, 1⟩ = false := by
  decide

theorem triangle_far_vertices :
    triBaseLeft ⟨-131779456, 53061760⟩ ⟨1, 105⟩ = ⟨105, -131779456⟩ ∧
      triBaseRight ⟨-131779456, 53061760⟩ ⟨1, 105⟩ = ⟨106123415, -131779456⟩ ∧
      triApex ⟨-131779456, 53061760⟩ ⟨1, 105⟩ = ⟨105, 1⟩ := by
  decide

theorem calculateBoxesInTriangle_far_not_mem :
    (⟨0, 105⟩ : Cell) ∉ calculateBoxesInTriangle ⟨-131779456, 53061760⟩ ⟨1, 105⟩ := by
  rw [mem_calculateBoxesInTriangle_scan]
  rintro ⟨_, _, _, h⟩
  obtain ⟨hL, hR, hA⟩ := triangle_far_vertices
  rw [hL, hR, hA, pointInTriangle_far] at h
  exact Bool.false_ne_true h

/-! ## How events change the store -/

theorem handleMouseMove_store (g : GState) (c : Cell) :
    (handleMouseMove g c).store = g.store ∨
      (handleMouseMove g c).store = pencilMoveUpdate g.store c := by
  unfold handleMouseMove
  split
  · by_cases ht : g.tool = Tool.pencil
    · simp only [ht, if_true]
      split
      · exact Or.inr rfl
      · exact Or.inl rfl
    · rw [if_neg ht]
      exact Or.inl rfl
  · exact Or.inl rfl

/-- Every event leaves the store alone, performs one `addBoxToSelection` with
a single cell or with the cells of a shape, undoes, or clears. -/
theorem event_store_step (g : GState) (e : Event) :
    (Event.apply g e).store = g.store ∨
      (∃ c, (Event.apply g e).store = addBoxToSelection g.store [c]) ∨
      (∃ tool a c boxes, shapeBoxes tool a c = some boxes ∧
        (Event.apply g e).store = addBoxToSelection g.store boxes) ∨
      (Event.apply g e).store = handleUndo g.store ∨
      (Event.apply g e).store = clearSelection g.store := by
  cases e with
  | pointerDown c =>
    by_cases ht : g.tool = Tool.pencil
    · exact Or.inr (Or.inl ⟨c, handleMouseDown_store_pencil g c ht⟩)
    · exact Or.inl (handleMouseDown_store_shape g c ht)
  | pointerMove c =>
    have key : Event.apply g (Event.pointerMove c) = handleMouseMove g c := rfl
    rw [key]
    rcases handleMouseMove_store g c with h | h
    · exact Or.inl h
    · exact Or.inr (Or.inl ⟨c, h.trans (pencilMoveUpdate_eq g.store c)⟩)
  | pointerUp c =>
    have key : Event.apply g (Event.pointerUp c) = handleMouseUp g c := rfl
    rw [key]
    cases ha : g.startPoint with
    | none =>
      left
      simp [handleMouseUp, ha]
    | some a =>
      rw [handleMouseUp_store g a c ha]
      cases hb : shapeBoxes g.tool a c with
      | none => exact Or.inl rfl
      | some boxes => exact Or.inr (Or.inr (Or.inl ⟨g.tool, a, c, boxes, hb, rfl⟩))
  | timerFires =>
    left
    show (firePreviewTimer g).store = g.store
    unfold firePreviewTimer
    split
    · rfl
    · split <;> rfl
  | setTool t => exact Or.inl rfl
  | undo => exact Or.inr (Or.inr (Or.inr (Or.inl rfl)))
  | clear => exact Or.inr (Or.inr (Or.inr (Or.inr rfl)))

theorem storeNoDup_event (g : GState) (e : Event) (h : StoreNoDup g.store) :
    StoreNoDup (Event.apply g e).store := by
  rcases event_store_step g e with h1 | ⟨c, h1⟩ | ⟨tool, a, c, boxes, hb, h1⟩ | h1 | h1
  · rw [h1]; exact h
  · rw [h1]
    apply storeNoDup_addBoxToSelection _ _ h
    simp [NoDupCells]
  · rw [h1]
    exact storeNoDup_addBoxToSelection _ _ h (noDupCells_shapeBoxes tool a c boxes hb)
  · rw [h1]; exact storeNoDup_handleUndo _ h
  · rw [h1]; exact storeNoDup_clearSelection _

theorem storeNoDup_runEvents (events : List Event) (g : GState) (h : StoreNoDup g.store) :
    StoreNoDup (runEvents g events).store := by
  induction events generalizing g with
  | nil => exact h
  | cons e rest ih => exact ih (Event.apply g e) (storeNoDup_event g e h)

/-! ## The history is a chain of proper initial segments -/

theorem historyChain_init : HistoryChain Store.init := by
  unfold HistoryChain Store.init
  exact List.chain'_singleton _

theorem historyChain_clearSelection (st : Store) : HistoryChain (clearSelection st) := by
  unfold HistoryChain clearSelection
  exact List.chain'_singleton _

theorem historyChain_addBoxToSelection (st : Store) (boxes : List Cell)
    (h : HistoryChain st) : HistoryChain (addBoxToSelection st boxes) := by
  by_cases hadd : AddsCell st boxes
  · unfold HistoryChain
    rw [addBoxToSelection_history, if_pos hadd, addBoxToSelection_selectedBoxes]
    refine List.Chain'.append h (List.chain'_singleton _) ?_
    intro x hx y hy
    rw [List.getLast?_concat] at hx
    simp only [Option.mem_def, Option.some.injEq, List.head?_cons] at hx hy
    subst hx
    subst hy
    have hne : boxes.filter (fun b => decide (boxKey b ∉ st.selectedBoxes.map boxKey)) ≠ [] := by
      intro h0
      exact (filter_new_eq_nil_iff _ _).1 h0 hadd
    refine ⟨List.prefix_append _ _, ?_⟩
    rw [List.length_append]
    have := List.length_pos.2 hne
    omega
  · rw [addBoxToSelection_of_not_addsCell st boxes hadd]
    exact h

theorem handleUndo_concat (S T : List Cell) (H : List (List Cell)) :
    handleUndo { selectedBoxes := S, history := H ++ [T] } =
      { selectedBoxes := T, history := H } := by
  simp [handleUndo]

theorem historyChain_handleUndo (st : Store) (h : HistoryChain st) :
    HistoryChain (handleUndo st) := by
  cases st with
  | mk S H =>
    rcases List.eq_nil_or_concat' H with hnil | ⟨H2, T, hcat⟩
    · subst hnil
      exact h
    · subst hcat
      rw [handleUndo_concat]
      exact List.Chain'.left_of_append h

theorem handleUndo_shorter (st : Store) (h : HistoryChain st) (hne : st.history ≠ []) :
    (handleUndo st).selectedBoxes.length < st.selectedBoxes.length := by
  cases st with
  | mk S H =>
    rcases List.eq_nil_or_concat' H with hnil | ⟨H2, T, hcat⟩
    · exact absurd hnil hne
    · subst hcat
      rw [handleUndo_concat]
      have h3 := (List.chain'_append.1 h).2.2 T (by rw [List.getLast?_concat]; rfl) S rfl
      exact h3.2

theorem historyChain_event (g : GState) (e : Event) (h : HistoryChain g.store) :
    HistoryChain (Event.apply g e).store := by
  rcases event_store_step g e with h1 | ⟨c, h1⟩ | ⟨tool, a, c, boxes, _, h1⟩ | h1 | h1
  · rw [h1]; exact h
  · rw [h1]; exact historyChain_addBoxToSelection _ _ h
  · rw [h1]; exact historyChain_addBoxToSelection _ _ h
  · rw [h1]; exact historyChain_handleUndo _ h
  · rw [h1]; exact historyChain_clearSelection _

theorem historyChain_runActions (actions : List Action) (g : GState)
    (h : HistoryChain g.store) : HistoryChain (runActions g actions).store := by
  induction actions generalizing g with
  | nil => exact h
  | cons a rest ih =>
    apply ih (Action.apply g a)
    cases a with
    | event e => exact historyChain_event g e h
    | addCells boxes => exact historyChain_addBoxToSelection _ _ h

/-! ## Claims about the selection and undo store -/

/-- C1: `addBoxToSelection(X)` on selection `S` and history `H` leaves the
selection equal to `S` followed by the cells of `X` whose `(row, col)` does
not occur in `S`, in the order of `X`; the history becomes `H ++ [S]` exactly
when some cell of `X` is not in `S`, and stays `H` exactly when there is no
such cell. -/
theorem addBoxToSelection_spec (S : List Cell) (H : List (List Cell)) (X : List Cell) :
    (addBoxToSelection ⟨S, H⟩ X).selectedBoxes =
        S ++ X.filter (fun b => decide (boxKey b ∉ S.map boxKey)) ∧
      ((addBoxToSelection ⟨S, H⟩ X).history = H ++ [S] ↔
        ∃ b ∈ X, boxKey b ∉ S.map boxKey) ∧
      ((addBoxToSelection ⟨S, H⟩ X).history = H ↔
        ¬ ∃ b ∈ X, boxKey b ∉ S.map boxKey) := by
  have hne : H ++ [S] ≠ H := by
    intro h
    have := congrArg List.length h
    simp at this
  refine ⟨addBoxToSelection_selectedBoxes ⟨S, H⟩ X, ?_, ?_⟩
  · rw [addBoxToSelection_history]
    by_cases h : AddsCell ⟨S, H⟩ X
    · rw [if_pos h]
      exact ⟨fun _ => h, fun _ => rfl⟩
    · rw [if_neg h]
      exact ⟨fun e => absurd e.symm hne, fun e => absurd e h⟩
  · rw [addBoxToSelection_history]
    by_cases h : AddsCell ⟨S, H⟩ X
    · rw [if_pos h]
      exact ⟨fun e => absurd e hne, fun e => absurd h e⟩
    · rw [if_neg h]
      exact ⟨fun _ => h, fun _ => rfl⟩

/-- C2 as stated fails: from the empty store, one `addBoxToSelection` call
with the list `[(0,0), (0,0)]` leaves a selection holding `(0,0)` twice. -/
theorem selection_dup_after_addCells :
    ¬ NoDupCells
      (runOps Store.init [StoreOp.addCells [⟨0, 0⟩, ⟨0, 0⟩]]).selectedBoxes := by
  decide

/-- C2 (amended): starting from the empty selection and empty history, after
any sequence of `addBoxToSelection`, `handleUndo` and `clearSelection` calls
in which every list passed to `addBoxToSelection` is itself free of duplicate
`(row, col)` pairs, no two entries of the selection have the same
`(row, col)`. -/
theorem selection_nodup_of_nodup_inputs (ops : List StoreOp)
    (h : ∀ X, StoreOp.addCells X ∈ ops → NoDupCells X) :
    NoDupCells (runOps Store.init ops).selectedBoxes :=
  (storeNoDup_runOps ops Store.init storeNoDup_init h).1

/-- Witness for C2 (amended): two overlapping additions, an undo and a
further addition. -/
theorem selection_nodup_of_nodup_inputs_witness :
    (∀ X, StoreOp.addCells X ∈
        [StoreOp.addCells [⟨0, 0⟩, ⟨0, 1⟩], StoreOp.addCells [⟨0, 1⟩, ⟨1, 1⟩],
          StoreOp.undo, StoreOp.addCells [⟨0, 0⟩, ⟨2, 2⟩]] → NoDupCells X) ∧
      NoDupCells (runOps Store.init
        [StoreOp.addCells [⟨0, 0⟩, ⟨0, 1⟩], StoreOp.addCells [⟨0, 1⟩, ⟨1, 1⟩],
          StoreOp.undo, StoreOp.addCells [⟨0, 0⟩, ⟨2, 2⟩]]).selectedBoxes :=
  have hyp : ∀ X, StoreOp.addCells X ∈
      [StoreOp.addCells [⟨0, 0⟩, ⟨0, 1⟩], StoreOp.addCells [⟨0, 1⟩, ⟨1, 1⟩],
        StoreOp.undo, StoreOp.addCells [⟨0, 0⟩, ⟨2, 2⟩]] → NoDupCells X := by
    intro X hX
    simp only [List.mem_cons, StoreOp.addCells.injEq, List.mem_singleton, reduceCtorEq,
      false_or, List.not_mem_nil, or_false] at hX
    rcases hX with rfl | rfl | rfl <;> decide
  ⟨hyp, selection_nodup_of_nodup_inputs _ hyp⟩

/-- C3: from any state, `N` consecutive `addBoxToSelection` calls that each
add at least one cell, followed by `N` calls of `handleUndo`, restore the
selection and the history of the starting state. -/
theorem undoTimes_addAll (st : Store) (xs : List (List Cell))
    (h : EachAddsCell st xs) : undoTimes xs.length (addAll st xs) = st := by
  induction xs generalizing st with
  | nil => rfl
  | cons x rest ih =>
    obtain ⟨hx, hrest⟩ := h
    show undoTimes (rest.length + 1) (addAll (addBoxToSelection st x) rest) = st
    rw [undoTimes_succ_outer, ih (addBoxToSelection st x) hrest]
    exact handleUndo_addBoxToSelection st x hx

/-- Witness for C3: three effective additions on a non-empty store, then
three undos. -/
theorem undoTimes_addAll_witness :
    EachAddsCell ⟨[⟨5, 5⟩], [[]]⟩ [[⟨0, 0⟩], [⟨0, 0⟩, ⟨1, 1⟩], [⟨5, 5⟩, ⟨2, 2⟩]] ∧
      undoTimes 3 (addAll ⟨[⟨5, 5⟩], [[]]⟩
        [[⟨0, 0⟩], [⟨0, 0⟩, ⟨1, 1⟩], [⟨5, 5⟩, ⟨2, 2⟩]]) = ⟨[⟨5, 5⟩], [[]]⟩ :=
  ⟨by decide, undoTimes_addAll ⟨[⟨5, 5⟩], [[]]⟩
    [[⟨0, 0⟩], [⟨0, 0⟩, ⟨1, 1⟩], [⟨5, 5⟩, ⟨2, 2⟩]] (by decide)⟩

/-- C4: `addBoxToSelection` is idempotent: calling it a second time with the
same list (repeated cells allowed) changes neither the selection nor the
history. -/
theorem addBoxToSelection_idempotent (st : Store) (X : List Cell) :
    addBoxToSelection (addBoxToSelection st X) X = addBoxToSelection st X :=
  addBoxToSelection_of_not_addsCell _ X (not_addsCell_after_add st X)

/-- C5: `clearSelection` leaves the selection and the history empty, a
`handleUndo` performed next changes nothing, and `handleUndo` on any state
with an empty history leaves the selection and the history as they are. -/
theorem clearSelection_then_undo (st : Store) (S : List Cell) :
    (clearSelection st).selectedBoxes = [] ∧ (clearSelection st).history = [] ∧
      handleUndo (clearSelection st) = clearSelection st ∧
      handleUndo ⟨S, []⟩ = ⟨S, []⟩ := by
  refine ⟨rfl, rfl, rfl, rfl⟩

/-! ## Claims about the rectangle -/

/-- C6: `calculateBoxesInRectangle(start, end)` returns, each exactly once,
precisely the cells with `min(start.row,end.row) ≤ row ≤ max(start.row,end.row)`
and `min(start.col,end.col) ≤ col ≤ max(start.col,end.col)`; its length is
`(|end.row − start.row| + 1) * (|end.col − start.col| + 1)`. -/
theorem calculateBoxesInRectangle_spec (start end_ : Cell) :
    (∀ b : Cell, b ∈ calculateBoxesInRectangle start end_ ↔
      min start.row end_.row ≤ b.row ∧ b.row ≤ max start.row end_.row ∧
      min start.col end_.col ≤ b.col ∧ b.col ≤ max start.col end_.col) ∧
    (calculateBoxesInRectangle start end_).Nodup ∧
    ((calculateBoxesInRectangle start end_).length : Int) =
      (|end_.row - start.row| + 1) * (|end_.col - start.col| + 1) :=
  ⟨mem_calculateBoxesInRectangle start end_, nodup_calculateBoxesInRectangle start end_,
    length_calculateBoxesInRectangle start end_⟩

/-- C7 fails for the rectangle: a drag anchored at `(row 0, col 0)` and
released at `(row -1, col 0)`, as reported when the pointer leaves the canvas
over its top edge, returns the cell `(row -1, col 0)`, which is outside the
grid. -/
theorem calculateBoxesInRectangle_not_clipped :
    calculateBoxesInRectangle ⟨0, 0⟩ ⟨-1, 0⟩ = [⟨-1, 0⟩, ⟨0, 0⟩] ∧
      ¬ InGrid ⟨-1, 0⟩ := by
  decide

/-! ## Claims about the circle and the triangle -/

/-- C8 as stated fails far outside pointer range: for `start = (row 0, col 0)`
and `end = (row 0, col 2^27)` the cell `(row 1, col 0)` is returned, because
`Math.sqrt(2^52 + 1)` rounds to the radius `2^26`, although in exact
arithmetic `(2·0 − 0 − 2^27)² + (2·1 − 0 − 0)² = 2^54 + 4` exceeds
`(2^27 − 0)² + (0 − 0)² = 2^54`. -/
theorem calculateBoxesInCircle_rounds_far_out :
    (⟨1, 0⟩ : Cell) ∈ calculateBoxesInCircle ⟨0, 0⟩ ⟨0, 134217728⟩ ∧
      ¬ ((2 * (⟨1, 0⟩ : Cell).col - (⟨0, 0⟩ : Cell).col - (⟨0, 134217728⟩ : Cell).col) ^ 2 +
          (2 * (⟨1, 0⟩ : Cell).row - (⟨0, 0⟩ : Cell).row - (⟨0, 134217728⟩ : Cell).row) ^ 2 ≤
        ((⟨0, 134217728⟩ : Cell).col - (⟨0, 0⟩ : Cell).col) ^ 2 +
          ((⟨0, 134217728⟩ : Cell).row - (⟨0, 0⟩ : Cell).row) ^ 2) :=
  ⟨calculateBoxesInCircle_far_mem, by decide⟩

/-- C8 (amended): for cells `start` and `end` whose coordinates are at most
`10^6` in absolute value, a cell `(r, c)` occurs in
`calculateBoxesInCircle(start, end)` if and only if its distance to the
midpoint of `start` and `end` is at most the radius (the distance from `end`
to that midpoint) and `0 ≤ r < 125`, `0 ≤ c < 250`; in exact arithmetic the
distance test reads
`(2c − start.col − end.col)² + (2r − start.row − end.row)² ≤
(end.col − start.col)² + (end.row − start.row)²`.  In particular the
floor/ceil scan box omits no in-grid cell within the radius. -/
theorem calculateBoxesInCircle_spec (start end_ b : Cell)
    (hs : start.Small) (he : end_.Small) :
    b ∈ calculateBoxesInCircle start end_ ↔
      (2 * b.col - start.col - end_.col) ^ 2 + (2 * b.row - start.row - end_.row) ^ 2 ≤
          (end_.col - start.col) ^ 2 + (end_.row - start.row) ^ 2 ∧
        0 ≤ b.row ∧ b.row < 125 ∧ 0 ≤ b.col ∧ b.col < 250 :=
  mem_calculateBoxesInCircle start end_ b hs he

/-- Witness for C8 (amended): the drag from `(row 2, col 2)` to
`(row 2, col 6)` has centre `(4, 2)` and radius `2`; the statement is
instantiated at the cell `(row 4, col 4)`, which is on the circle. -/
theorem calculateBoxesInCircle_spec_witness :
    (⟨2, 2⟩ : Cell).Small ∧ (⟨2, 6⟩ : Cell).Small ∧
      ((⟨4, 4⟩ : Cell) ∈ calculateBoxesInCircle ⟨2, 2⟩ ⟨2, 6⟩ ↔
        (2 * (⟨4, 4⟩ : Cell).col - (⟨2, 2⟩ : Cell).col - (⟨2, 6⟩ : Cell).col) ^ 2 +
            (2 * (⟨4, 4⟩ : Cell).row - (⟨2, 2⟩ : Cell).row - (⟨2, 6⟩ : Cell).row) ^ 2 ≤
          ((⟨2, 6⟩ : Cell).col - (⟨2, 2⟩ : Cell).col) ^ 2 +
            ((⟨2, 6⟩ : Cell).row - (⟨2, 2⟩ : Cell).row) ^ 2 ∧
        0 ≤ (⟨4, 4⟩ : Cell).row ∧ (⟨4, 4⟩ : Cell).row < 125 ∧
          0 ≤ (⟨4, 4⟩ : Cell).col ∧ (⟨4, 4⟩ : Cell).col < 250) :=
  ⟨by decide, by decide,
    calculateBoxesInCircle_spec ⟨2, 2⟩ ⟨2, 6⟩ ⟨4, 4⟩ (by decide) (by decide)⟩

/-- C9 as stated fails far outside pointer range: for
`start = (row -131779456, col 53061760)` and `end = (row 1, col 105)` the
clamped estimate is `2 * 145 = 290`, the cell `(row 0, col 105)` is in the
grid and its point `(105, 0)` lies on the edge from the base endpoint
`(105, -131779456)` to the apex `(105, 1)`, yet the cell is not returned:
the products of the area formula exceed `2^53`, are rounded, and the rounded
area sum misses the rounded area by one unit. -/
theorem calculateBoxesInTriangle_rounds_far_out :
    triangleEstimated ⟨-131779456, 53061760⟩ ⟨1, 105⟩ ≤ 3000 ∧
      (0 ≤ (⟨0, 105⟩ : Cell).row ∧ (⟨0, 105⟩ : Cell).row < 125 ∧
        0 ≤ (⟨0, 105⟩ : Cell).col ∧ (⟨0, 105⟩ : Cell).col < 250) ∧
      InClosedTriangle ⟨(⟨0, 105⟩ : Cell).col, (⟨0, 105⟩ : Cell).row⟩
        ⟨(⟨-131779456, 53061760⟩ : Cell).col -
            |(⟨1, 105⟩ : Cell).col - (⟨-131779456, 53061760⟩ : Cell).col|,
          (⟨-131779456, 53061760⟩ : Cell).row⟩
        ⟨(⟨-131779456, 53061760⟩ : Cell).col +
            |(⟨1, 105⟩ : Cell).col - (⟨-131779456, 53061760⟩ : Cell).col|,
          (⟨-131779456, 53061760⟩ : Cell).row⟩
        ⟨(⟨1, 105⟩ : Cell).col, (⟨1, 105⟩ : Cell).row⟩ ∧
      (⟨0, 105⟩ : Cell) ∉ calculateBoxesInTriangle ⟨-131779456, 53061760⟩ ⟨1, 105⟩ :=
  ⟨by decide, by decide, inClosedTriangle_far, calculateBoxesInTriangle_far_not_mem⟩

/-- C9 (amended): for cells `start` and `end` whose coordinates are at most
`10^6` in absolute value and whose clamped bounding-box estimate is at most
3000, a cell `(r, c)` occurs in `calculateBoxesInTriangle(start, end)` if and
only if `0 ≤ r < 125`, `0 ≤ c < 250` and the point `(c, r)` lies in the
closed triangle with base endpoints `(start.col − d, start.row)`,
`(start.col + d, start.row)` and apex `(end.col, end.row)`, where
`d = |end.col − start.col|`; degenerate drags (`d = 0` or
`end.row = start.row`), where the triangle is a segment, are included. -/
theorem calculateBoxesInTriangle_spec (start end_ b : Cell)
    (hs : start.Small) (he : end_.Small)
    (hest : triangleEstimated start end_ ≤ 3000) :
    b ∈ calculateBoxesInTriangle start end_ ↔
      (0 ≤ b.row ∧ b.row < 125 ∧ 0 ≤ b.col ∧ b.col < 250) ∧
        InClosedTriangle ⟨b.col, b.row⟩
          ⟨start.col - |end_.col - start.col|, start.row⟩
          ⟨start.col + |end_.col - start.col|, start.row⟩
          ⟨end_.col, end_.row⟩ := by
  rw [mem_calculateBoxesInTriangle start end_ b hest hs he, inGrid_iff]

/-- Witness for C9 (amended): the drag from `(row 3, col 3)` to
`(row 0, col 5)` has estimate `4 * 5 = 20`; the statement is instantiated at
the cell `(row 1, col 4)`. -/
theorem calculateBoxesInTriangle_spec_witness :
    (⟨3, 3⟩ : Cell).Small ∧ (⟨0, 5⟩ : Cell).Small ∧
      triangleEstimated ⟨3, 3⟩ ⟨0, 5⟩ ≤ 3000 ∧
      ((⟨1, 4⟩ : Cell) ∈ calculateBoxesInTriangle ⟨3, 3⟩ ⟨0, 5⟩ ↔
        (0 ≤ (⟨1, 4⟩ : Cell).row ∧ (⟨1, 4⟩ : Cell).row < 125 ∧
          0 ≤ (⟨1, 4⟩ : Cell).col ∧ (⟨1, 4⟩ : Cell).col < 250) ∧
        InClosedTriangle ⟨(⟨1, 4⟩ : Cell).col, (⟨1, 4⟩ : Cell).row⟩
          ⟨(⟨3, 3⟩ : Cell).col - |(⟨0, 5⟩ : Cell).col - (⟨3, 3⟩ : Cell).col|,
            (⟨3, 3⟩ : Cell).row⟩
          ⟨(⟨3, 3⟩ : Cell).col + |(⟨0, 5⟩ : Cell).col - (⟨3, 3⟩ : Cell).col|,
            (⟨3, 3⟩ : Cell).row⟩
          ⟨(⟨0, 5⟩ : Cell).col, (⟨0, 5⟩ : Cell).row⟩) :=
  ⟨by decide, by decide, by decide,
    calculateBoxesInTriangle_spec ⟨3, 3⟩ ⟨0, 5⟩ ⟨1, 4⟩ (by decide) (by decide) (by decide)⟩

/-- C10: if the bounding-box cell estimate
`(maxRow − minRow + 1) * (maxCol − minCol + 1)` of the grid-clamped bounding
box exceeds 3000, `calculateBoxesInTriangle(start, end)` returns the empty
list. -/
theorem calculateBoxesInTriangle_safety_valve (start end_ : Cell)
    (h : triangleEstimated start end_ > 3000) :
    calculateBoxesInTriangle start end_ = [] :=
  calculateBoxesInTriangle_of_estimated_gt start end_ h

/-- Witness for C10: the drag from `(row 0, col 100)` to `(row 124, col 200)`
has estimate `125 * 201 = 25125`. -/
theorem calculateBoxesInTriangle_safety_valve_witness :
    triangleEstimated ⟨0, 100⟩ ⟨124, 200⟩ > 3000 ∧
      calculateBoxesInTriangle ⟨0, 100⟩ ⟨124, 200⟩ = [] :=
  ⟨by decide, calculateBoxesInTriangle_safety_valve ⟨0, 100⟩ ⟨124, 200⟩ (by decide)⟩

/-! ## Claims about the gesture controller -/

/-- C11: one shape stamp is one undo step.  With a shape tool (circle,
rectangle or triangle) active, `pointerDown(anchor)` followed by
`pointerUp(release)` performs exactly one `addBoxToSelection` call, with the
cells computed for the shape, so the history grows by at most one entry, and
whenever it grows a single `handleUndo` restores the selection and history
from before the gesture.  Scenario: with the rectangle tool and an empty
selection, dragging from `(row 0, col 0)` to `(row 2, col 2)` selects the 9
cells of that square with one history entry, and one Undo removes all 9. -/
theorem shape_stamp_is_one_undo_step (g : GState) (anchor release : Cell)
    (ht : g.tool ≠ Tool.pencil) :
    (∃ boxes, shapeBoxes g.tool anchor release = some boxes ∧
      (handleMouseUp (handleMouseDown g anchor) release).store =
        addBoxToSelection g.store boxes) ∧
    (handleMouseUp (handleMouseDown g anchor) release).store.history.length ≤
      g.store.history.length + 1 ∧
    ((handleMouseUp (handleMouseDown g anchor) release).store.history.length =
        g.store.history.length + 1 →
      handleUndo (handleMouseUp (handleMouseDown g anchor) release).store = g.store) ∧
    (runEvents GState.init
        [Event.setTool Tool.rectangle, Event.pointerDown ⟨0, 0⟩, Event.pointerUp ⟨2, 2⟩]).store =
      { selectedBoxes := [⟨0, 0⟩, ⟨0, 1⟩, ⟨0, 2⟩, ⟨1, 0⟩, ⟨1, 1⟩, ⟨1, 2⟩, ⟨2, 0⟩, ⟨2, 1⟩, ⟨2, 2⟩]
        history := [[]] } ∧
    (runEvents GState.init
        [Event.setTool Tool.rectangle, Event.pointerDown ⟨0, 0⟩, Event.pointerUp ⟨2, 2⟩,
          Event.undo]).store = { selectedBoxes := [], history := [] } := by
  obtain ⟨f1, f2, _, _, _, _⟩ := handleMouseDown_fields g anchor
  have hstore := handleMouseUp_store (handleMouseDown g anchor) anchor release f2
  rw [f1, handleMouseDown_store_shape g anchor ht] at hstore
  have hsome : ∃ boxes, shapeBoxes g.tool anchor release = some boxes := by
    cases htool : g.tool with
    | pencil => exact absurd htool ht
    | circle => exact ⟨_, rfl⟩
    | rectangle => exact ⟨_, rfl⟩
    | triangle => exact ⟨_, rfl⟩
  obtain ⟨boxes, hboxes⟩ := hsome
  rw [hboxes] at hstore
  simp only at hstore
  have hhist := addBoxToSelection_history g.store boxes
  refine ⟨⟨boxes, hboxes, hstore⟩, ?_, ?_, by decide, by decide⟩
  · rw [hstore, hhist]
    split
    · simp
    · omega
  · intro hlen
    rw [hstore] at hlen ⊢
    by_cases hadd : AddsCell g.store boxes
    · exact handleUndo_addBoxToSelection g.store boxes hadd
    · rw [hhist, if_neg hadd] at hlen
      omega

set_option maxRecDepth 100000 in
/-- Witness for C11: the circle tool on a store that already holds a cell and
a history entry, dragged from `(row 1, col 1)` to `(row 3, col 3)`. -/
theorem shape_stamp_is_one_undo_step_witness :
    (⟨⟨[⟨7, 7⟩], [[]]⟩, [], none, false, none, Tool.circle, none⟩ : GState).tool ≠ Tool.pencil ∧
      handleUndo (handleMouseUp (handleMouseDown
        (⟨⟨[⟨7, 7⟩], [[]]⟩, [], none, false, none, Tool.circle, none⟩ : GState) ⟨1, 1⟩)
          ⟨3, 3⟩).store = ⟨[⟨7, 7⟩], [[]]⟩ :=
  ⟨by decide,
    (shape_stamp_is_one_undo_step
      (⟨⟨[⟨7, 7⟩], [[]]⟩, [], none, false, none, Tool.circle, none⟩ : GState) ⟨1, 1⟩ ⟨3, 3⟩
      (by decide)).2.2.1 (by decide)⟩

/-- C12: with the pencil active, a gesture `pointerDown(p1)`,
`pointerMove(p2)`, ..., `pointerMove(pk)`, `pointerUp` through pairwise
distinct cells none of which is selected leaves the selection equal to
`S ++ [p1..pk]` and the history `k` entries longer, and for every `j ≤ k`, `j`
successive Undos leave the selection equal to `S ++ [p1..p(k-j)]`. -/
theorem pencil_stroke_one_entry_per_cell (g : GState) (p1 : Cell) (rest : List Cell)
    (release : Cell) (ht : g.tool = Tool.pencil) (hnd : (p1 :: rest).Nodup)
    (hnew : ∀ p ∈ p1 :: rest, p ∉ g.store.selectedBoxes) :
    (handleMouseUp (rest.foldl handleMouseMove (handleMouseDown g p1)) release).store.selectedBoxes
        = g.store.selectedBoxes ++ (p1 :: rest) ∧
    (handleMouseUp (rest.foldl handleMouseMove (handleMouseDown g p1))
        release).store.history.length = g.store.history.length + (rest.length + 1) ∧
    ∀ j, j ≤ rest.length + 1 →
      (undoTimes j (handleMouseUp (rest.foldl handleMouseMove (handleMouseDown g p1))
          release).store).selectedBoxes =
        g.store.selectedBoxes ++ (p1 :: rest).take (rest.length + 1 - j) := by
  obtain ⟨f1, f2, f3, _, _, f6⟩ := handleMouseDown_fields g p1
  rw [if_pos ht] at f6
  obtain ⟨hp1, hndrest⟩ := List.nodup_cons.1 hnd
  obtain ⟨m1, m2, m3⟩ := foldl_handleMouseMove_pencil rest (handleMouseDown g p1)
    (by rw [f1]; exact ht) f3 (by rw [f2]; simp)
    (by
      intro l hl
      rw [f6] at hl
      simp only [Option.some.injEq] at hl
      exact hl ▸ hp1)
    hndrest
  have hup := handleMouseUp_store (rest.foldl handleMouseMove (handleMouseDown g p1)) p1 release
    (by rw [m3, f2])
  rw [m2] at hup
  have hstore : (handleMouseUp (rest.foldl handleMouseMove (handleMouseDown g p1)) release).store
      = addAll g.store ((p1 :: rest).map fun p => [p]) := by
    rw [hup]
    show (rest.foldl handleMouseMove (handleMouseDown g p1)).store = _
    rw [m1, handleMouseDown_store_pencil g p1 ht]
    rfl
  obtain ⟨a1, a2, a3⟩ := addAll_singletons (p1 :: rest) g.store hnd hnew
  rw [hstore]
  refine ⟨a1, by rw [a2]; rfl, ?_⟩
  intro j hj
  have hlen : ((p1 :: rest).map fun p => [p]).length = rest.length + 1 := by simp
  rw [undoTimes_addAll_take g.store _ a3 j (by rw [hlen]; exact hj), hlen, ← List.map_take]
  refine (addAll_singletons _ g.store ?_ ?_).1
  · exact hnd.sublist (List.take_sublist _ _)
  · intro p hp
    exact hnew p (List.mem_of_mem_take hp)

/-- Witness for C12: a pencil drag through 5 distinct cells from the empty
selection gives 5 history entries, and 5 Undos restore the empty selection. -/
theorem pencil_stroke_one_entry_per_cell_witness :
    GState.init.tool = Tool.pencil ∧
      ([⟨0, 0⟩, ⟨0, 1⟩, ⟨0, 2⟩, ⟨1, 2⟩, ⟨2, 2⟩] : List Cell).Nodup ∧
      (∀ p ∈ ([⟨0, 0⟩, ⟨0, 1⟩, ⟨0, 2⟩, ⟨1, 2⟩, ⟨2, 2⟩] : List Cell),
        p ∉ GState.init.store.selectedBoxes) ∧
      (handleMouseUp (([⟨0, 1⟩, ⟨0, 2⟩, ⟨1, 2⟩, ⟨2, 2⟩] : List Cell).foldl handleMouseMove
        (handleMouseDown GState.init ⟨0, 0⟩)) ⟨2, 2⟩).store.history.length = 0 + (4 + 1) ∧
      (undoTimes 5 (handleMouseUp (([⟨0, 1⟩, ⟨0, 2⟩, ⟨1, 2⟩, ⟨2, 2⟩] : List Cell).foldl
        handleMouseMove (handleMouseDown GState.init ⟨0, 0⟩)) ⟨2, 2⟩).store).selectedBoxes =
          [] ++ ([⟨0, 0⟩, ⟨0, 1⟩, ⟨0, 2⟩, ⟨1, 2⟩, ⟨2, 2⟩] : List Cell).take (4 + 1 - 5) :=
  have h := pencil_stroke_one_entry_per_cell GState.init ⟨0, 0⟩
    [⟨0, 1⟩, ⟨0, 2⟩, ⟨1, 2⟩, ⟨2, 2⟩] ⟨2, 2⟩ (by decide) (by decide) (by decide)
  ⟨by decide, by decide, by decide, h.2.1, h.2.2 5 (by decide)⟩

/-- C14: the rectangle is symmetric under swapping its arguments:
`calculateBoxesInRectangle(start, end)` and
`calculateBoxesInRectangle(end, start)` are the same list, in the same
order. -/
theorem calculateBoxesInRectangle_swap (start end_ : Cell) :
    calculateBoxesInRectangle start end_ = calculateBoxesInRectangle end_ start := by
  unfold calculateBoxesInRectangle
  rw [min_comm start.row, max_comm start.row, min_comm start.col, max_comm start.col]

/-- C16: pencil painting goes through AddCells.  The inline updater that
pencil `handleMouseMove` runs on entering the cell `e` gives the same
selection and history as `addBoxToSelection([e])`; so does a pencil
`handleMouseMove` as a whole (which does nothing when `e` is the last drawn
cell), and so does the anchor commit of pencil `handleMouseDown`. -/
theorem pencil_paints_through_addCells (g : GState) (e anchor : Cell)
    (last : Option Cell) :
    pencilMoveUpdate g.store e = addBoxToSelection g.store [e] ∧
    (handleMouseMove
        { g with
          tool := Tool.pencil, isDragging := true, startPoint := some anchor,
          lastDrawnBox := last } e).store =
      (if last = some e then g.store else addBoxToSelection g.store [e]) ∧
    (handleMouseDown { g with tool := Tool.pencil } e).store =
      addBoxToSelection g.store [e] := by
  refine ⟨pencilMoveUpdate_eq g.store e, ?_, rfl⟩
  cases last with
  | none =>
    simp only [handleMouseMove, if_true, reduceCtorEq, if_false]
    exact pencilMoveUpdate_eq g.store e
  | some l =>
    by_cases hl : l = e
    · subst hl
      simp [handleMouseMove]
    · have hne : (l.row != e.row || l.col != e.col) = true := by
        simp only [Bool.or_eq_true, bne_iff_ne, ne_eq]
        by_contra hcon
        push_neg at hcon
        apply hl
        cases l; cases e
        simp only [Cell.mk.injEq]
        exact hcon
      simp only [handleMouseMove, if_true, hne, Option.some.injEq, hl, if_false]
      exact pencilMoveUpdate_eq g.store e

/-- C13 fails in the code: with the pencil (the initial tool), a
`pointerDown` whose cursor cell is `(row 0, col 250)` stores that cell, which
is outside the grid.  That cell is what `getBoxCoords` computes for the
pointer offset `x = 1000`, on the right edge of the canvas element.  The
pencil path has no bounds test, unlike the circle and triangle paths. -/
theorem selection_leaves_grid_with_pencil :
    getBoxCoords 1000 0 = ⟨0, 250⟩ ∧
      (runEvents GState.init [Event.pointerDown ⟨0, 250⟩]).store.selectedBoxes = [⟨0, 250⟩] ∧
      ¬ AllInGrid (runEvents GState.init [Event.pointerDown ⟨0, 250⟩]).store.selectedBoxes := by
  decide

/-- C15 as stated fails in both directions.  For the collinear vertices
`a = (0,0)`, `b = (2,0)`, `c = (1,0)` the triangle is the segment from
`(0,0)` to `(2,0)`, yet `pointInTriangle` accepts `p = (5,0)`, which is on
the same line but outside that segment.  And for the non-degenerate triangle
`a = (105, -131779456)`, `b = (106123415, -131779456)`, `c = (105, 1)` the
point `p = (105, 0)` on the edge `ac` is rejected, because the products of
the area formula exceed `2^53` and are rounded. -/
theorem pointInTriangle_accepts_outside_collinear :
    (pointInTriangle ⟨5, 0⟩ ⟨0, 0⟩ ⟨2, 0⟩ ⟨1, 0⟩ = true ∧
      ¬ InClosedTriangle ⟨5, 0⟩ ⟨0, 0⟩ ⟨2, 0⟩ ⟨1, 0⟩) ∧
    (area2 ⟨105, -131779456⟩ ⟨106123415, -131779456⟩ ⟨105, 1⟩ ≠ 0 ∧
      InClosedTriangle ⟨105, 0⟩ ⟨105, -131779456⟩ ⟨106123415, -131779456⟩ ⟨105, 1⟩ ∧
      pointInTriangle ⟨105, 0⟩ ⟨105, -131779456⟩ ⟨106123415, -131779456⟩ ⟨105, 1⟩ =
        false) := by
  refine ⟨⟨by decide, ?_⟩, by decide, inClosedTriangle_far, pointInTriangle_far⟩
  intro h
  have hb := (inClosedTriangle_bounds _ _ _ _ h).2.2.2
  exact absurd hb (by decide)

/-- C15 (amended): for all points `p`, `a`, `b`, `c` with integer coordinates
of absolute value at most `10^7`, `pointInTriangle(p, a, b, c)` returns true
for every `p` in the closed triangle `abc` (collinear or coincident vertices
included), and when `a`, `b`, `c` are not collinear (the triangle has
non-zero area) it returns true only for such `p`: on non-degenerate
triangles the area-sum test with tolerance `0.5` is exact. -/
theorem pointInTriangle_exact_when_nondegenerate (p a b c : Point)
    (hp : p.Small) (ha : a.Small) (hb : b.Small) (hc : c.Small) :
    (InClosedTriangle p a b c → pointInTriangle p a b c = true) ∧
      (area2 a b c ≠ 0 → (pointInTriangle p a b c = true ↔ InClosedTriangle p a b c)) := by
  refine ⟨pointInTriangle_of_inClosedTriangle p a b c hp ha hb hc, ?_⟩
  intro hd
  have hdet : det3 a b c ≠ 0 := by
    intro h0
    apply hd
    rw [(area2_eq_abs_det3 a b c ha hb hc).1, h0, abs_zero]
  exact ⟨inClosedTriangle_of_pointInTriangle p a b c hp ha hb hc hdet,
    pointInTriangle_of_inClosedTriangle p a b c hp ha hb hc⟩

/-- Witness for C15 (amended): the right triangle `(0,0)`, `(2,0)`, `(0,2)`
has non-zero area, and the statement is instantiated at its boundary point
`(1,1)`. -/
theorem pointInTriangle_exact_when_nondegenerate_witness :
    (⟨1, 1⟩ : Point).Small ∧ (⟨0, 0⟩ : Point).Small ∧ (⟨2, 0⟩ : Point).Small ∧
      (⟨0, 2⟩ : Point).Small ∧
      area2 ⟨0, 0⟩ ⟨2, 0⟩ ⟨0, 2⟩ ≠ 0 ∧ pointInTriangle ⟨1, 1⟩ ⟨0, 0⟩ ⟨2, 0⟩ ⟨0, 2⟩ = true ∧
      InClosedTriangle ⟨1, 1⟩ ⟨0, 0⟩ ⟨2, 0⟩ ⟨0, 2⟩ :=
  ⟨by decide, by decide, by decide, by decide, by decide, by decide,
    ((pointInTriangle_exact_when_nondegenerate ⟨1, 1⟩ ⟨0, 0⟩ ⟨2, 0⟩ ⟨0, 2⟩
      (by decide) (by decide) (by decide) (by decide)).2 (by decide)).1 (by decide)⟩

/-- C17: undo never restores a no-op.  In every state reached from the
initial empty state by `addBoxToSelection` calls on any cell lists and by
the component's events (pencil downs and moves, shape commits, Undo, Clear,
tool changes, timer firings), each history snapshot is a proper initial
segment of the snapshot above it and the top snapshot is a proper initial
segment of the selection; hence `handleUndo` on a non-empty history yields a
strictly shorter selection. -/
theorem undo_never_restores_noop (actions : List Action) :
    HistoryChain (runActions GState.init actions).store ∧
      ((runActions GState.init actions).store.history ≠ [] →
        (handleUndo (runActions GState.init actions).store).selectedBoxes.length <
          (runActions GState.init actions).store.selectedBoxes.length) :=
  have h := historyChain_runActions actions GState.init historyChain_init
  ⟨h, handleUndo_shorter _ h⟩

/-- Witness for C17: a direct addition with a repeated cell, a pencil
gesture and a rectangle stamp leave a non-empty history, and Undo then
shortens the selection. -/
theorem undo_never_restores_noop_witness :
    (runActions GState.init
        [Action.addCells [⟨1, 1⟩, ⟨1, 1⟩], Action.event (Event.pointerDown ⟨0, 0⟩),
          Action.event (Event.pointerUp ⟨0, 0⟩), Action.event (Event.setTool Tool.rectangle),
          Action.event (Event.pointerDown ⟨0, 0⟩),
          Action.event (Event.pointerUp ⟨1, 1⟩)]).store.history ≠ [] ∧
      (handleUndo (runActions GState.init
        [Action.addCells [⟨1, 1⟩, ⟨1, 1⟩], Action.event (Event.pointerDown ⟨0, 0⟩),
          Action.event (Event.pointerUp ⟨0, 0⟩), Action.event (Event.setTool Tool.rectangle),
          Action.event (Event.pointerDown ⟨0, 0⟩),
          Action.event (Event.pointerUp ⟨1, 1⟩)]).store).selectedBoxes.length <
        (runActions GState.init
        [Action.addCells [⟨1, 1⟩, ⟨1, 1⟩], Action.event (Event.pointerDown ⟨0, 0⟩),
          Action.event (Event.pointerUp ⟨0, 0⟩), Action.event (Event.setTool Tool.rectangle),
          Action.event (Event.pointerDown ⟨0, 0⟩),
          Action.event (Event.pointerUp ⟨1, 1⟩)]).store.selectedBoxes.length :=
  ⟨by decide, (undo_never_restores_noop _).2 (by decide)⟩

/-- C18 fails on the code: `handleMouseUp` clears the preview but leaves the
debounce timer pending.  With the rectangle tool, `pointerDown (0,0)`,
`pointerMove (0,1)` and `pointerUp (0,1)` leave the component idle with an
empty preview and a pending preview update; when that timer then fires, the
component is still idle and the preview holds the two cells of the
rectangle. -/
theorem stale_preview_after_gesture_end :
    (runEvents GState.init
        [Event.setTool Tool.rectangle, Event.pointerDown ⟨0, 0⟩, Event.pointerMove ⟨0, 1⟩,
          Event.pointerUp ⟨0, 1⟩]).Idle ∧
      (runEvents GState.init
        [Event.setTool Tool.rectangle, Event.pointerDown ⟨0, 0⟩, Event.pointerMove ⟨0, 1⟩,
          Event.pointerUp ⟨0, 1⟩]).previewBoxes = [] ∧
      (runEvents GState.init
        [Event.setTool Tool.rectangle, Event.pointerDown ⟨0, 0⟩, Event.pointerMove ⟨0, 1⟩,
          Event.pointerUp ⟨0, 1⟩]).pending = some (Tool.rectangle, ⟨0, 0⟩, ⟨0, 1⟩) ∧
      (runEvents GState.init
        [Event.setTool Tool.rectangle, Event.pointerDown ⟨0, 0⟩, Event.pointerMove ⟨0, 1⟩,
          Event.pointerUp ⟨0, 1⟩, Event.timerFires]).Idle ∧
      (runEvents GState.init
        [Event.setTool Tool.rectangle, Event.pointerDown ⟨0, 0⟩, Event.pointerMove ⟨0, 1⟩,
          Event.pointerUp ⟨0, 1⟩, Event.timerFires]).previewBoxes = [⟨0, 0⟩, ⟨0, 1⟩] := by
  decide

/-- C19: a zero-size drag yields the minimal cell set.  For every cell `p`
inside the grid, `calculateBoxesInRectangle(p, p)`,
`calculateBoxesInCircle(p, p)` and `calculateBoxesInTriangle(p, p)` each
return exactly `[p]`; and for all cells `start`, `end` each of the three
functions returns a list (they are total functions). -/
theorem zero_size_drag_minimal (p start end_ : Cell) (hp : InGrid p) :
    calculateBoxesInRectangle p p = [p] ∧ calculateBoxesInCircle p p = [p] ∧
      calculateBoxesInTriangle p p = [p] ∧
      (∃ l, calculateBoxesInRectangle start end_ = l) ∧
      (∃ l, calculateBoxesInCircle start end_ = l) ∧
      (∃ l, calculateBoxesInTriangle start end_ = l) :=
  ⟨calculateBoxesInRectangle_self p, calculateBoxesInCircle_self p hp,
    calculateBoxesInTriangle_self p hp, ⟨_, rfl⟩, ⟨_, rfl⟩, ⟨_, rfl⟩⟩

/-- Witness for C19: the cell `(row 3, col 4)`. -/
theorem zero_size_drag_minimal_witness :
    InGrid ⟨3, 4⟩ ∧ calculateBoxesInRectangle ⟨3, 4⟩ ⟨3, 4⟩ = [⟨3, 4⟩] ∧
      calculateBoxesInCircle ⟨3, 4⟩ ⟨3, 4⟩ = [⟨3, 4⟩] ∧
      calculateBoxesInTriangle ⟨3, 4⟩ ⟨3, 4⟩ = [⟨3, 4⟩] :=
  have h := zero_size_drag_minimal ⟨3, 4⟩ ⟨0, 0⟩ ⟨1, 1⟩ (by decide)
  ⟨by decide, h.1, h.2.1, h.2.2.1⟩

/-- C20: each rasterizer returns a list in which no `(row, col)` occurs
twice; consequently, in every state reached from the initial empty state
through the component's events alone (pointer events with any tool and any
cursor cells, timer firings, Undo, Clear), the selection and every history
snapshot are free of duplicate `(row, col)` pairs. -/
theorem rasterizers_and_gestures_nodup (start end_ : Cell) (events : List Event) :
    NoDupCells (calculateBoxesInCircle start end_) ∧
      NoDupCells (calculateBoxesInRectangle start end_) ∧
      NoDupCells (calculateBoxesInTriangle start end_) ∧
      NoDupCells (runEvents GState.init events).store.selectedBoxes ∧
      ∀ s ∈ (runEvents GState.init events).store.history, NoDupCells s :=
  have h := storeNoDup_runEvents events GState.init storeNoDup_init
  ⟨(noDupCells_iff_nodup _).2 (nodup_calculateBoxesInCircle start end_),
    (noDupCells_iff_nodup _).2 (nodup_calculateBoxesInRectangle start end_),
    (noDupCells_iff_nodup _).2 (nodup_calculateBoxesInTriangle start end_), h.1, h.2⟩

end Home
